/-
Verification of the seo-crawler-mcp crawl engine.

This file shallowly embeds the core of the crawler (UrlManager,
CrawlOrchestrator.processPage, ContentExtractor, LinkExtractor.detectPlacement,
CrawlDatabase error storage) as executable Lean definitions and proves the
specification claims about them.

Platform primitives used by the source (the WHATWG `URL` constructor,
`JSON.parse`) are modelled: `parseURL` models `new URL(s)` restricted to
hierarchical `scheme://host/path?query#fragment` URLs without userinfo, port,
or percent-encoding; strings outside this fragment are treated as unparsable.
`JSON.parse` is taken as an explicit function parameter where it is used.
-/
import Mathlib

set_option maxRecDepth 4000

/-! ## Generic string and list helpers -/

/-- String from a list of characters (inverse of `String.data`). -/
theorem string_mk_data (s : String) : String.mk s.data = s := by
  cases s
  rfl

theorem string_data_append (a b : String) : (a ++ b).data = a.data ++ b.data := by
  cases a
  cases b
  rfl

/-- First index at which `pat` occurs as a contiguous block of `l`
(models JavaScript `String.prototype.indexOf`, position part). -/
def firstOccurAux (pat : List Char) : List Char → Option Nat
  | [] => if pat.isEmpty then some 0 else none
  | c :: t =>
    if pat.isPrefixOf (c :: t) then some 0
    else match firstOccurAux pat t with
      | some n => some (n + 1)
      | none => none

/-- Model of JavaScript `s.indexOf(pat)` (returns -1 when absent). -/
def jsIndexOf (s pat : String) : Int :=
  match firstOccurAux pat.data s.data with
  | some n => (n : Int)
  | none => -1

/-- Model of JavaScript `s.includes(pat)` (substring containment). -/
def jsIncludes (s pat : String) : Bool :=
  (firstOccurAux pat.data s.data).isSome

/-- Model of JavaScript `s.endsWith(pat)`. -/
def jsEndsWith (s pat : String) : Bool := pat.data.isSuffixOf s.data

/-- Model of JavaScript `s.startsWith(pat)`. -/
def jsStartsWith (s pat : String) : Bool := pat.data.isPrefixOf s.data

/-- Model of JavaScript `s.slice(0, -1)`: drop the final character. -/
def jsDropLast (s : String) : String := String.mk s.data.dropLast

/-- Model of JavaScript `s.length` (character count; the source only meets
ASCII here, where UTF-16 units and characters coincide). -/
def strLen (s : String) : Nat := s.data.length

/-- Insert-or-update an association list at a key, preserving insertion order
(models `Map.prototype.set` and JS object property assignment). -/
def assocSet {α : Type} (m : List (String × α)) (k : String) (v : α) :
    List (String × α) :=
  match m with
  | [] => [(k, v)]
  | (k0, v0) :: rest => if k0 == k then (k0, v) :: rest else (k0, v0) :: assocSet rest k v

/-! ## URL model

Model of the WHATWG `URL` constructor as used by the source, restricted to
hierarchical absolute URLs `scheme://host[/path][?query][#fragment]` with no
userinfo, port, backslash, or bracket in the authority and no percent-encoding
performed.  The fragment is dropped (the source never reads `url.hash`). -/

structure URLParts where
  /-- The scheme including the trailing colon, lowercased (JS `url.protocol`). -/
  protocol : String
  /-- The host, lowercased (JS `url.hostname`). -/
  hostname : String
  /-- The path, always beginning with `/` (JS `url.pathname`). -/
  pathname : String
  /-- The query including its leading `?`, or `""` when the query is empty
  (JS `url.search`). -/
  search : String
deriving DecidableEq, Repr

def isSchemeChar (c : Char) : Bool :=
  c.isAlpha || c.isDigit || c == '+' || c == '-' || c == '.'

def isHostChar (c : Char) : Bool :=
  !(c == '/' || c == '?' || c == '#' || c == ':' || c == '@' ||
    c == '\\' || c == '[' || c == ']')

/-- Parse the path/query part that follows the authority.  The input is empty
or begins with `'/'`, `'?'` or `'#'`. -/
def parsePathSearch (rest : List Char) : String × String :=
  match rest with
  | [] => ("/", "")
  | c :: cs =>
    if c == '/' then
      let path := rest.takeWhile (fun c => !(c == '?' || c == '#'))
      let rest2 := rest.dropWhile (fun c => !(c == '?' || c == '#'))
      match rest2 with
      | '?' :: qs =>
        let q := qs.takeWhile (fun c => !(c == '#'))
        (String.mk path, if q.isEmpty then "" else String.mk ('?' :: q))
      | _ => (String.mk path, "")
    else if c == '?' then
      let q := cs.takeWhile (fun c => !(c == '#'))
      ("/", if q.isEmpty then "" else String.mk ('?' :: q))
    else ("/", "")

/-- Model of `new URL(s)` on the hierarchical fragment described above;
`none` models the constructor throwing. -/
def parseURL (s : String) : Option URLParts :=
  let cs := s.data
  let scheme := cs.takeWhile isSchemeChar
  let rest := cs.dropWhile isSchemeChar
  match scheme with
  | [] => none
  | c0 :: _ =>
    if !c0.isAlpha then none
    else match rest with
    | ':' :: '/' :: '/' :: rest2 =>
      let host := rest2.takeWhile isHostChar
      let rest3 := rest2.dropWhile isHostChar
      if host.isEmpty then none
      else match rest3 with
      | [] =>
        some ⟨String.mk (scheme.map Char.toLower) ++ ":",
              String.mk (host.map Char.toLower), "/", ""⟩
      | d :: _ =>
        if d == '/' || d == '?' || d == '#' then
          let ps := parsePathSearch rest3
          some ⟨String.mk (scheme.map Char.toLower) ++ ":",
                String.mk (host.map Char.toLower), ps.1, ps.2⟩
        else none
    | _ => none

/-- `url.hostname.replace(/^www\./, '')`. -/
def stripWww (h : String) : String :=
  if jsStartsWith h "www." then String.mk (h.data.drop 4) else h

/-! ## UrlManager (the Frontier), from src/unnamed/part_000 -/

structure UrlManager where
  baseDomain : String
  /-- `Map<string, number>`: normalized URL → depth, in insertion order. -/
  discovered : List (String × Nat)
  /-- `Set<string>` of normalized visited URLs, in insertion order. -/
  visited : List String
  /-- `Map<string, Set<string>>`: normalized URL → normalized source pages. -/
  sourcePagesMap : List (String × List String)
deriving Repr

/-- `UrlManager.normalizeUrl` (part_000 lines 22-40). -/
def normalizeUrl (url : String) : String :=
  match parseURL url with
  | none => url
  | some parsed =>
    let clean := parsed.protocol ++ "//" ++ parsed.hostname ++ parsed.pathname
    let clean := if parsed.search != "" then clean ++ parsed.search else clean
    if jsEndsWith clean "/" && ((strLen clean : Int) > jsIndexOf clean "://" + 4) then
      jsDropLast clean
    else clean

/-- `UrlManager.normalizeDomain` (part_000 lines 42-49). -/
def normalizeDomain (domain : String) : String :=
  let url := if jsStartsWith domain "http" then domain else "https://" ++ domain
  match parseURL url with
  | some p => stripWww p.hostname
  | none => stripWww domain

def mkUrlManager (baseDomain : String) : UrlManager :=
  ⟨normalizeDomain baseDomain, [], [], []⟩

/-- `UrlManager.isInternal` (part_000 lines 51-58): fail-closed. -/
def UrlManager.isInternal (um : UrlManager) (url : String) : Bool :=
  match parseURL url with
  | some p => stripWww p.hostname == um.baseDomain
  | none => false

/-- `UrlManager.addDiscovered` (part_000 lines 60-74). -/
def UrlManager.addDiscovered (um : UrlManager) (url : String) (depth : Nat)
    (sourceUrl : Option String) : UrlManager :=
  let normalized := normalizeUrl url
  let discovered :=
    if (um.discovered.lookup normalized).isSome then um.discovered
    else um.discovered ++ [(normalized, depth)]
  match sourceUrl with
  | none => { um with discovered := discovered }
  | some src =>
    let normalizedSource := normalizeUrl src
    let cur := (um.sourcePagesMap.lookup normalized).getD []
    let cur' := if normalizedSource ∈ cur then cur else cur ++ [normalizedSource]
    { um with discovered := discovered,
              sourcePagesMap := assocSet um.sourcePagesMap normalized cur' }

/-- `UrlManager.markVisited` (part_000 lines 76-79). -/
def UrlManager.markVisited (um : UrlManager) (url : String) : UrlManager :=
  let normalized := normalizeUrl url
  { um with visited := if normalized ∈ um.visited then um.visited
                       else um.visited ++ [normalized] }

def UrlManager.isVisited (um : UrlManager) (url : String) : Bool :=
  decide (normalizeUrl url ∈ um.visited)

def UrlManager.isDiscovered (um : UrlManager) (url : String) : Bool :=
  (um.discovered.lookup (normalizeUrl url)).isSome

def UrlManager.getSourcePages (um : UrlManager) (url : String) : List String :=
  (um.sourcePagesMap.lookup (normalizeUrl url)).getD []

/-- `UrlManager.getDepth` (part_000 lines 95-97): defaults to 0. -/
def UrlManager.getDepth (um : UrlManager) (url : String) : Nat :=
  (um.discovered.lookup (normalizeUrl url)).getD 0

def UrlManager.getTotalDiscovered (um : UrlManager) : Nat := um.discovered.length

def UrlManager.getUnvisitedUrls (um : UrlManager) : List String :=
  (um.discovered.map Prod.fst).filter (fun u => decide (u ∉ um.visited))


/-! ## CrawlOrchestrator (src/unnamed/part_003)

The fetch scheduler (the external Crawlee library) is modelled per the spec's
Fetcher description: a queue of pending URLs from which any entry may complete
next, with `maxRequestsPerCrawl := maxPages` enforced by refusing to handle
further requests once `maxPages` requests have been handled.  The link filter
`shouldCrawlUrl` (whose internals are regex/extension lists no claim touches)
is carried as a boolean predicate in the configuration. -/

structure OrchConfig where
  baseDomain : String
  startUrl : String
  maxDepth : Nat
  maxPages : Nat
  /-- Embeds `CrawlOrchestrator.shouldCrawlUrl` (part_003 lines 280-324). -/
  shouldCrawl : String → Bool

/-- The PageRecord fields the orchestrator itself determines; the remaining
extracted fields (see `ContentExtractor.extract`) do not involve the
depth/page-cap claims. -/
structure PageRec where
  url : String
  depth : Nat
deriving DecidableEq, Repr

structure OrchState where
  um : UrlManager
  /-- Pending URLs of the request queue (raw, as passed to `addRequests`). -/
  queue : List String
  pages : List PageRec
  /-- Requests handled so far (successes and terminal failures). -/
  handled : Nat
  skipped : Nat
  crawled : Nat
  failed : Nat

/-- One iteration of the link loop in `processPage` (part_003 lines 209-224).
The accumulator carries the UrlManager, `linksToAdd`, and the skip count. -/
def linkStep (cfg : OrchConfig) (currentDepth : Nat) (pageUrl : String)
    (acc : UrlManager × List String × Nat) (link : String) :
    UrlManager × List String × Nat :=
  let (um, toAdd, sk) := acc
  if cfg.shouldCrawl link then
    if currentDepth < cfg.maxDepth then
      let um' := if um.isDiscovered link then um
                 else um.addDiscovered link (currentDepth + 1) (some pageUrl)
      (um', toAdd ++ [link], sk)
    else (um, toAdd, sk + 1)
  else (um, toAdd, sk + 1)

/-- The link loop of `processPage` run over all extracted links. -/
def processLinks (cfg : OrchConfig) (currentDepth : Nat) (pageUrl : String)
    (um : UrlManager) (links : List String) : UrlManager × List String × Nat :=
  links.foldl (linkStep cfg currentDepth pageUrl) (um, [], 0)

/-- The `linksToAdd` list that `processPage` passes to `crawler.addRequests`
for a page `u` whose extracted links are `links`. -/
def enqueuedLinks (cfg : OrchConfig) (st : OrchState) (u : String)
    (links : List String) : List String :=
  let um0 := st.um.markVisited u
  (processLinks cfg (um0.getDepth u) u um0 links).2.1

/-- `CrawlOrchestrator.processPage` (part_003 lines 183-244) as a state
transformer; `links` abstracts `LinkExtractor.extract`'s target URLs for the
fetched HTML. -/
def processPage (cfg : OrchConfig) (st : OrchState) (u : String)
    (links : List String) : OrchState :=
  let um0 := st.um.markVisited u
  let page : PageRec := ⟨u, um0.getDepth u⟩
  let currentDepth := um0.getDepth u
  let res := processLinks cfg currentDepth u um0 links
  { um := res.1
    queue := st.queue.erase u ++ res.2.1
    pages := st.pages ++ [page]
    handled := st.handled + 1
    skipped := st.skipped + res.2.2
    crawled := st.crawled + 1
    failed := st.failed }

/-- `CrawlOrchestrator.handleFailedRequest` (part_003 lines 246-263) at the
scheduler level: the request is consumed and counted, no PageRecord is made. -/
def failPage (st : OrchState) (u : String) : OrchState :=
  { st with queue := st.queue.erase u,
            handled := st.handled + 1,
            failed := st.failed + 1 }

/-- `run()` start-up (part_003 lines 142-146): seed the Frontier with the
start URL at depth 0 and hand the start URL to the crawler. -/
def initState (cfg : OrchConfig) : OrchState :=
  { um := (mkUrlManager cfg.baseDomain).addDiscovered cfg.startUrl 0 none
    queue := [cfg.startUrl]
    pages := []
    handled := 0
    skipped := 0
    crawled := 0
    failed := 0 }

/-- One scheduler transition: some pending request completes (successfully,
yielding `processPage` on its extracted links, or failing terminally).  The
page cap `maxRequestsPerCrawl = maxPages` refuses further handling once
`maxPages` requests were handled. -/
inductive OrchStep (cfg : OrchConfig) : OrchState → OrchState → Prop
  | fetch (st : OrchState) (u : String) (links : List String)
      (hu : u ∈ st.queue) (hcap : st.handled < cfg.maxPages) :
      OrchStep cfg st (processPage cfg st u links)
  | fail (st : OrchState) (u : String)
      (hu : u ∈ st.queue) (hcap : st.handled < cfg.maxPages) :
      OrchStep cfg st (failPage st u)

/-- States a crawl session can reach from its seeded initial state. -/
def OrchReachable (cfg : OrchConfig) (st : OrchState) : Prop :=
  Relation.ReflTransGen (OrchStep cfg) (initState cfg) st

/-! ## LinkExtractor.detectPlacement (src/src/core/LinkExtractor.ts 93-118)

The walk over `$el.parent()`, `….parent()` is embedded as a function of the
anchor's ancestor chain, nearest ancestor first; each frame carries the
element's tag and attributes. -/

inductive Placement where
  | navigation
  | footer
  | body
deriving DecidableEq, Repr

structure Frame where
  tag : String
  attrs : List (String × String)
deriving Repr

/-- Cheerio `el.prop('tagName')` returns the upper-cased DOM tag name. -/
def propTagName (tag : String) : String := String.mk (tag.data.map Char.toUpper)

def navKeywords : List String := ["nav", "menu", "header"]

/-- `LinkExtractor.detectPlacement`: walk the ancestor chain outward. -/
def detectPlacement : List Frame → Placement
  | [] => .body
  | f :: rest =>
    let tagName := String.mk ((propTagName f.tag).data.map Char.toLower)
    let classes := String.mk (((f.attrs.lookup "class").getD "").data.map Char.toLower)
    let id := String.mk (((f.attrs.lookup "id").getD "").data.map Char.toLower)
    if tagName == "footer" || jsIncludes classes "footer" || jsIncludes id "footer" then
      .footer
    else if tagName == "nav" || tagName == "header" then
      .navigation
    else if navKeywords.any (fun keyword => jsIncludes classes keyword || jsIncludes id keyword) then
      .navigation
    else
      detectPlacement rest

/-! ## CrawlDatabase error rows (src/unnamed/part_002 lines 646-672) -/

structure CrawlError where
  url : String
  errorType : String
  message : String
  timestamp : String
deriving DecidableEq, Repr

/-- A row of the `errors` table (the autoincrement id is omitted; it does not
participate in `saveError`/`getAllErrors`). -/
structure ErrorRow where
  crawl_id : String
  url : String
  error_type : String
  error_message : String
  timestamp : String
deriving DecidableEq, Repr

/-- `CrawlDatabase.saveError`: note both the `crawl_id` and `url` columns are
bound to `error.url`. -/
def saveError (tbl : List ErrorRow) (error : CrawlError) : List ErrorRow :=
  tbl ++ [⟨error.url, error.url, error.errorType, error.message, error.timestamp⟩]

/-- `ORDER BY timestamp` (ascending), as a stable insertion sort. -/
def orderByTimestamp : List ErrorRow → List ErrorRow
  | [] => []
  | r :: rest => insertByTimestamp r (orderByTimestamp rest)
where
  insertByTimestamp (r : ErrorRow) : List ErrorRow → List ErrorRow
    | [] => [r]
    | r0 :: rest => if r.timestamp ≤ r0.timestamp then r :: r0 :: rest
                    else r0 :: insertByTimestamp r rest

/-- `CrawlDatabase.getAllErrors`: `SELECT * FROM errors WHERE crawl_id = ?
ORDER BY timestamp`, rows mapped back to `CrawlError`s. -/
def getAllErrors (tbl : List ErrorRow) (crawlId : String) : List CrawlError :=
  (orderByTimestamp (tbl.filter (fun r => r.crawl_id == crawlId))).map
    (fun r => ⟨r.url, r.error_type, r.error_message, r.timestamp⟩)

/-! ## DOM model and ContentExtractor (src/unnamed/part_002 lines 754-1216)

The cheerio document is modelled as a forest of element/text nodes with
lowercase tag and attribute names (as cheerio's HTML parser produces them);
selectors become document-order (preorder) filters. -/

inductive HNode where
  | el (tag : String) (attrs : List (String × String)) (children : List HNode)
  | txt (s : String)
deriving Repr

mutual
def nodeText : HNode → String
  | .txt s => s
  | .el _ _ children => nodesText children
def nodesText : List HNode → String
  | [] => ""
  | n :: ns => nodeText n ++ nodesText ns
end

mutual
def nodeElems : HNode → List HNode
  | .txt _ => []
  | .el tag attrs children => .el tag attrs children :: elemsOf children
def elemsOf : List HNode → List HNode
  | [] => []
  | n :: ns => nodeElems n ++ elemsOf ns
end

def HNode.tag : HNode → String
  | .el t _ _ => t
  | .txt _ => ""

def HNode.attrs : HNode → List (String × String)
  | .el _ a _ => a
  | .txt _ => []

def HNode.children : HNode → List HNode
  | .el _ _ c => c
  | .txt _ => []

/-- Cheerio `$(el).attr(name)`. -/
def HNode.attr (n : HNode) (name : String) : Option String := n.attrs.lookup name

/-- `$('tag')` over the document, in document order. -/
def selTag (doc : List HNode) (t : String) : List HNode :=
  (elemsOf doc).filter (fun n => n.tag == t)

/-- `$('tag[attrName="v"]')`. -/
def selAttrEq (doc : List HNode) (t attrName v : String) : List HNode :=
  (elemsOf doc).filter (fun n => n.tag == t && n.attr attrName == some v)

/-- `$('tag[attrName]')`. -/
def selHasAttr (doc : List HNode) (t attrName : String) : List HNode :=
  (elemsOf doc).filter (fun n => n.tag == t && (n.attr attrName).isSome)

/-- `$('tag[attrName^="v"]')`. -/
def selAttrStarts (doc : List HNode) (t attrName v : String) : List HNode :=
  (elemsOf doc).filter (fun n =>
    n.tag == t && (match n.attr attrName with
      | some s => jsStartsWith s v
      | none => false))

/-- `$(sel).text()` concatenates the text of every matched element. -/
def textAll (ns : List HNode) : String := nodesText ns

def strLower (s : String) : String := String.mk (s.data.map Char.toLower)

/-- Model of JavaScript `String.prototype.trim`. -/
def jsTrim (s : String) : String :=
  String.mk (((s.data.dropWhile Char.isWhitespace).reverse.dropWhile
    Char.isWhitespace).reverse)

def isWordChar (c : Char) : Bool := c.isAlpha || c.isDigit || c == '_'

/-- Count of `/\b\w+\b/g` matches: the number of maximal word-character runs. -/
def countWordRuns : List Char → Bool → Nat
  | [], _ => 0
  | c :: t, inWord =>
    if isWordChar c then (if inWord then 0 else 1) + countWordRuns t true
    else countWordRuns t false

def countWords (text : String) : Nat := countWordRuns text.data false

def natOfDigits (l : List Char) : Nat := l.foldl (fun n c => n * 10 + (c.toNat - 48)) 0

/-- Model of JavaScript `parseInt(s, 10)`; `none` models `NaN`. -/
def parseIntJS (s : String) : Option Int :=
  let l := s.data.dropWhile Char.isWhitespace
  let signAndDigits : Int × List Char :=
    match l with
    | '-' :: t => (-1, t)
    | '+' :: t => (1, t)
    | _ => (1, l)
  let digits := signAndDigits.2.takeWhile Char.isDigit
  if digits.isEmpty then none
  else some (signAndDigits.1 * (natOfDigits digits : Int))

/-- `/charset=([^;]+)/i` applied to a content-type value. -/
def matchCharset (contentType : String) : Option String :=
  match firstOccurAux "charset=".data (contentType.data.map Char.toLower) with
  | none => none
  | some i =>
    let captured := (contentType.data.drop (i + 8)).takeWhile (fun c => !(c == ';'))
    if captured.isEmpty then none else some (String.mk captured)

def extractCharset (doc : List HNode) : String :=
  let charsetMeta := ((selHasAttr doc "meta" "charset").head?.bind
    (fun n => n.attr "charset")).getD ""
  if charsetMeta != "" then charsetMeta
  else
    let contentType := ((selAttrEq doc "meta" "http-equiv" "Content-Type").head?.bind
      (fun n => n.attr "content")).getD ""
    if contentType != "" then (matchCharset contentType).getD "" else ""

structure BasicSeo where
  title : String
  metaDescription : String
  h1 : String
  h2 : List String
  h3 : List String
  wordCount : Nat
  lang : String
  charset : String
deriving DecidableEq, Repr

/-- `ContentExtractor.extractBasicSeo` (part_002 lines 850-870). -/
def extractBasicSeo (doc : List HNode) : BasicSeo :=
  { title := jsTrim (textAll (selTag doc "title"))
    metaDescription :=
      (((selAttrEq doc "meta" "name" "description").head?.bind
        (fun n => n.attr "content")).map jsTrim).getD ""
    h1 := jsTrim (((selTag doc "h1").head?.map nodeText).getD "")
    h2 := ((selTag doc "h2").take 10).map (fun el => jsTrim (nodeText el))
    h3 := ((selTag doc "h3").take 10).map (fun el => jsTrim (nodeText el))
    wordCount := countWords (textAll (selTag doc "body"))
    lang := ((selTag doc "html").head?.bind (fun n => n.attr "lang")).getD ""
    charset := extractCharset doc }

structure MetaTagsR where
  metaTags : List (String × String)
  viewport : String
  robots : String
  author : String
  keywords : String
  generator : String
  themeColor : String
  canonicalUrl : String
deriving DecidableEq, Repr

def metaTagStep (acc : MetaTagsR) (el : HNode) : MetaTagsR :=
  let name := strLower ((el.attr "name").getD "")
  let content := (el.attr "content").getD ""
  if name != "" && content != "" then
    let acc := { acc with metaTags := assocSet acc.metaTags name content }
    if name == "viewport" then { acc with viewport := content }
    else if name == "robots" then { acc with robots := content }
    else if name == "author" then { acc with author := content }
    else if name == "keywords" then { acc with keywords := content }
    else if name == "generator" then { acc with generator := content }
    else if name == "theme-color" then { acc with themeColor := content }
    else acc
  else acc

/-- `ContentExtractor.extractMetaTags` (part_002 lines 890-936). -/
def extractMetaTags (doc : List HNode) : MetaTagsR :=
  let folded := (selHasAttr doc "meta" "name").foldl metaTagStep
    ⟨[], "", "", "", "", "", "", ""⟩
  { folded with canonicalUrl :=
      ((selAttrEq doc "link" "rel" "canonical").head?.bind
        (fun n => n.attr "href")).getD "" }

/-- Stand-in for the values produced by the platform `JSON.parse`; the parse
function itself is passed as a parameter to `extract`. -/
structure JsonValue where
  raw : String
deriving DecidableEq, Repr

structure SchemaItem where
  itemType : String
  properties : List (String × String)
deriving DecidableEq, Repr

/-- `ContentExtractor.extractMicrodataProperties` (part_002 lines 965-992). -/
def extractMicrodataProperties (el : HNode) : List (String × String) :=
  ((elemsOf el.children).filter (fun n => (n.attr "itemprop").isSome)).foldl
    (fun properties propEl =>
      let propName := (propEl.attr "itemprop").getD ""
      if propName == "" then properties
      else
        let tagName := strLower (propTagName propEl.tag)
        let content :=
          if tagName == "meta" then (propEl.attr "content").getD ""
          else if tagName == "img" then (propEl.attr "src").getD ""
          else if tagName == "a" then (propEl.attr "href").getD ""
          else jsTrim (nodeText propEl)
        if content != "" then assocSet properties propName content else properties) []

/-- `ContentExtractor.extractStructuredData` (part_002 lines 938-963). -/
def extractStructuredData (jsonParse : String → Option JsonValue) (doc : List HNode) :
    List JsonValue × List SchemaItem :=
  let jsonLd := (selAttrEq doc "script" "type" "application/ld+json").filterMap
    (fun el => jsonParse (nodesText el.children))
  let schemaOrg := ((elemsOf doc).filter (fun n => (n.attr "itemtype").isSome)).foldl
    (fun acc el =>
      let itemType := (el.attr "itemtype").getD ""
      if itemType != "" then
        let properties := extractMicrodataProperties el
        if properties.length > 0 then acc ++ [⟨itemType, properties⟩] else acc
      else acc) []
  (jsonLd, schemaOrg)

/-- Remove the first occurrence of `pat` (JS `s.replace(pat, '')` with a
string pattern). -/
def replaceFirst (s pat : String) : String :=
  match firstOccurAux pat.data s.data with
  | none => s
  | some i => String.mk (s.data.take i ++ s.data.drop (i + pat.data.length))

/-- `ContentExtractor.extractSocialTags` (part_002 lines 994-1020). -/
def extractSocialTags (doc : List HNode) :
    List (String × String) × List (String × String) :=
  let ogTags := (selAttrStarts doc "meta" "property" "og:").foldl
    (fun og el =>
      let property := (el.attr "property").getD ""
      let content := (el.attr "content").getD ""
      if property != "" && content != "" then
        assocSet og (replaceFirst property "og:") content
      else og) []
  let twitterTags := (selAttrStarts doc "meta" "name" "twitter:").foldl
    (fun tw el =>
      let name := (el.attr "name").getD ""
      let content := (el.attr "content").getD ""
      if name != "" && content != "" then
        assocSet tw (replaceFirst name "twitter:") content
      else tw) []
  (ogTags, twitterTags)

def containsCI (s pat : String) : Bool := jsIncludes (strLower s) (strLower pat)

def isUpperOrDigit (c : Char) : Bool := (decide ('A' ≤ c) && decide (c ≤ 'Z')) || c.isDigit

/-- First match of `/G-[A-Z0-9]{10}/`. -/
def findGA4 : List Char → Option String
  | [] => none
  | c :: t =>
    if c == 'G' then
      match t with
      | '-' :: r =>
        let tenChars := r.take 10
        if tenChars.length == 10 && tenChars.all isUpperOrDigit then
          some (String.mk ('G' :: '-' :: tenChars))
        else findGA4 t
      | _ => findGA4 t
    else findGA4 t

/-- First match of `/GTM-[A-Z0-9]+/`. -/
def findGTM : List Char → Option String
  | [] => none
  | c :: t =>
    if c == 'G' then
      match t with
      | 'T' :: 'M' :: '-' :: r =>
        let run := r.takeWhile isUpperOrDigit
        if run.isEmpty then findGTM t
        else some (String.mk ('G' :: 'T' :: 'M' :: '-' :: run))
      | _ => findGTM t
    else findGTM t

structure Analytics where
  googleAnalytics : Bool
  gtag : Bool
  ga4Id : String
  gtmId : String
  facebookPixel : Bool
  hotjar : Bool
  mixpanel : Bool
deriving DecidableEq, Repr

/-- `ContentExtractor.extractAnalytics` (part_002 lines 1022-1045). -/
def extractAnalytics (html : String) : Analytics :=
  { googleAnalytics := containsCI html "gtag(" || containsCI html "ga(" ||
      containsCI html "GoogleAnalyticsObject" || containsCI html "google-analytics.com" ||
      containsCI html "googletagmanager.com"
    gtag := containsCI html "gtag("
    ga4Id := (findGA4 html.data).getD ""
    gtmId := (findGTM html.data).getD ""
    facebookPixel := containsCI html "fbq(" || containsCI html "facebook.com/tr"
    hotjar := containsCI html "hotjar.com" || containsCI html "hj("
    mixpanel := containsCI html "mixpanel.com" || containsCI html "mixpanel.track" }

/-- Render `URLParts` back to a string (model of `url.toString()` for
fragment-free URLs). -/
def renderParts (p : URLParts) : String :=
  p.protocol ++ "//" ++ p.hostname ++ p.pathname ++ p.search

/-- Split an href (already stripped of scheme/authority) at `?`, dropping any
fragment; returns (path-part, search-part). -/
def splitPathQuery (s : String) : String × String :=
  let noFrag := s.data.takeWhile (fun c => !(c == '#'))
  let path := noFrag.takeWhile (fun c => !(c == '?'))
  let q := noFrag.dropWhile (fun c => !(c == '?'))
  (String.mk path,
   match q with
   | '?' :: qs => if qs.isEmpty then "" else String.mk ('?' :: qs)
   | _ => "")

/-- Directory of a path: everything up to and including the last `/`. -/
def dirOf (p : List Char) : List Char :=
  ((p.reverse.dropWhile (fun c => !(c == '/')))).reverse

/-- Model of `new URL(href, base)`: relative-reference resolution for the
forms the source meets (absolute, protocol-relative, root-relative,
query-only, plain relative).  Dot segments are not normalized and
non-hierarchical absolute URLs (`mailto:`, `data:` …) are out of the model's
scope (`none`, like an unparsable input). -/
def urlResolve (href : String) (base : URLParts) : Option URLParts :=
  match parseURL href with
  | some p => some p
  | none =>
    let scheme := href.data.takeWhile isSchemeChar
    if !scheme.isEmpty && (href.data.drop scheme.length).head? == some ':' then
      none
    else if jsStartsWith href "//" then parseURL (base.protocol ++ href)
    else if jsStartsWith href "/" then
      let pq := splitPathQuery href
      some { base with pathname := pq.1, search := pq.2 }
    else if jsStartsWith href "?" then
      let pq := splitPathQuery href
      some { base with search := pq.2 }
    else if href == "" then some base
    else
      let pq := splitPathQuery href
      some { base with pathname := String.mk (dirOf base.pathname.data) ++ pq.1,
                       search := pq.2 }

structure ImageData where
  src : String
  alt : String
  width : Option Int
  height : Option Int
deriving DecidableEq, Repr

/-- The `#`/`mailto:`/`tel:`/`javascript:` pseudo-link skip list. -/
def pseudoSkip (href : String) : Bool :=
  jsStartsWith href "#" || jsStartsWith href "mailto:" ||
  jsStartsWith href "tel:" || jsStartsWith href "javascript:"

/-- `ContentExtractor.extractImages` (part_002 lines 1047-1077). -/
def extractImages (doc : List HNode) (base : URLParts) : List ImageData :=
  ((selTag doc "img").take 20).foldl
    (fun images el =>
      let src := (el.attr "src").getD ""
      if src == "" then images
      else
        let src :=
          if jsStartsWith src "//" then "https:" ++ src
          else if jsStartsWith src "/" then base.protocol ++ "//" ++ base.hostname ++ src
          else if !(jsStartsWith src "http://") && !(jsStartsWith src "https://") then
            match urlResolve src base with
            | some p => renderParts p
            | none => src
          else src
        let width := match el.attr "width" with
          | some w => if w != "" then parseIntJS w else none
          | none => none
        let height := match el.attr "height" with
          | some h => if h != "" then parseIntJS h else none
          | none => none
        images ++ [⟨src, (el.attr "alt").getD "", width, height⟩]) []

/-- `ContentExtractor.countLinks` (part_002 lines 1079-1107):
(internalLinks, externalLinks). -/
def countLinks (doc : List HNode) (base : URLParts) : Nat × Nat :=
  let baseDomain := stripWww base.hostname
  (selHasAttr doc "a" "href").foldl
    (fun acc el =>
      let href := (el.attr "href").getD ""
      if href == "" || pseudoSkip href then acc
      else match urlResolve href base with
        | some absolute =>
          if stripWww absolute.hostname == baseDomain then (acc.1 + 1, acc.2)
          else (acc.1, acc.2 + 1)
        | none => acc) (0, 0)

structure HreflangLink where
  lang : String
  url : String
deriving DecidableEq, Repr

/-- `ContentExtractor.extractHreflang` (part_002 lines 1109-1122). -/
def extractHreflang (doc : List HNode) : List HreflangLink :=
  ((elemsOf doc).filter (fun n =>
      n.tag == "link" && n.attr "rel" == some "alternate" &&
      (n.attr "hreflang").isSome)).foldl
    (fun acc el =>
      let lang := (el.attr "hreflang").getD ""
      let url := (el.attr "href").getD ""
      if lang != "" && url != "" then acc ++ [⟨lang, url⟩] else acc) []

structure SecurityHeaders where
  contentSecurityPolicy : Option String
  strictTransportSecurity : Option String
  xFrameOptions : Option String
  referrerPolicy : Option String
deriving DecidableEq, Repr

structure Response where
  headers : List (String × String)
  /-- `response.timings.phases.total`, already rounded; `none` when absent. -/
  timingsTotal : Option Int

/-- `ContentExtractor.extractSecurityHeaders` (part_002 lines 1124-1133);
`|| null` maps an absent or empty header value to `none`. -/
def extractSecurityHeaders (r : Response) : SecurityHeaders :=
  let get := fun (k : String) =>
    match r.headers.lookup k with
    | some v => if v != "" then some v else none
    | none => none
  ⟨get "content-security-policy", get "strict-transport-security",
   get "x-frame-options", get "referrer-policy"⟩

structure HeadingCounts where
  h1 : Nat
  h2 : Nat
  h3 : Nat
  h4 : Nat
  h5 : Nat
  h6 : Nat
deriving DecidableEq, Repr

def headingTags : List String := ["h1", "h2", "h3", "h4", "h5", "h6"]

/-- The `$('h1, h2, h3, h4, h5, h6')` selection, in document order. -/
def headingEls (doc : List HNode) : List HNode :=
  (elemsOf doc).filter (fun n => headingTags.contains n.tag)

def bumpCount (c : HeadingCounts) (tag : String) : HeadingCounts :=
  if tag == "h1" then { c with h1 := c.h1 + 1 }
  else if tag == "h2" then { c with h2 := c.h2 + 1 }
  else if tag == "h3" then { c with h3 := c.h3 + 1 }
  else if tag == "h4" then { c with h4 := c.h4 + 1 }
  else if tag == "h5" then { c with h5 := c.h5 + 1 }
  else if tag == "h6" then { c with h6 := c.h6 + 1 }
  else c

/-- One iteration of the heading walk (part_002 lines 1146-1160); the
accumulator is (counts, hierarchy, errors, lastLevel). -/
def headingStep (acc : HeadingCounts × List String × List String × Nat)
    (el : HNode) : HeadingCounts × List String × List String × Nat :=
  let (counts, hierarchy, errors, lastLevel) := acc
  let tagName := strLower (propTagName el.tag)
  if tagName == "" then acc
  else
    let level := natOfDigits (tagName.data.drop 1)
    let hierarchy := hierarchy ++ [tagName]
    let counts := bumpCount counts tagName
    let errors :=
      if lastLevel > 0 && decide (level > lastLevel + 1) then
        errors ++ [tagName ++ " after h" ++ toString lastLevel ++ " (skipped levels)"]
      else errors
    (counts, hierarchy, errors, level)

structure HeadingStructR where
  counts : HeadingCounts
  hierarchy : List String
  errors : List String
deriving DecidableEq, Repr

/-- `ContentExtractor.extractHeadingStructure` (part_002 lines 1135-1163). -/
def extractHeadingStructure (doc : List HNode) : HeadingStructR :=
  let r := (headingEls doc).foldl headingStep (⟨0, 0, 0, 0, 0, 0⟩, [], [], 0)
  ⟨r.1, r.2.1, r.2.2.1⟩

structure LinkMetrics where
  externalTargetBlankCount : Nat
  externalTargetBlankNoRelCount : Nat
  protocolRelativeLinksCount : Nat
deriving DecidableEq, Repr

/-- `ContentExtractor.extractLinkSecurityMetrics` (part_002 lines 1165-1215). -/
def extractLinkSecurityMetrics (doc : List HNode) (base : URLParts) : LinkMetrics :=
  let baseDomain := stripWww base.hostname
  let m := (selHasAttr doc "a" "href").foldl
    (fun (m : Nat × Nat × Nat) el =>
      let href := (el.attr "href").getD ""
      if href == "" || pseudoSkip href then m
      else
        let isInternal := match urlResolve href base with
          | some absolute => stripWww absolute.hostname == baseDomain
          | none => false
        let m :=
          if !isInternal && el.attr "target" == some "_blank" then
            let rel := (el.attr "rel").getD ""
            let noRel :=
              if rel == "" || (!(jsIncludes rel "noopener") && !(jsIncludes rel "noreferrer")) then
                m.2.1 + 1
              else m.2.1
            (m.1 + 1, noRel, m.2.2)
          else m
        if jsStartsWith href "//" then (m.1, m.2.1, m.2.2 + 1) else m) (0, 0, 0)
  let protoRel := ((elemsOf doc).filter (fun n =>
      (n.tag == "link" && (n.attr "href").isSome) ||
      (n.tag == "script" && (n.attr "src").isSome) ||
      (n.tag == "img" && (n.attr "src").isSome))).foldl
    (fun cnt el =>
      let attrName := if el.tag == "script" || el.tag == "img" then "src" else "href"
      match el.attr attrName with
      | some resourceUrl =>
        if resourceUrl != "" && jsStartsWith resourceUrl "//" then cnt + 1 else cnt
      | none => cnt) m.2.2
  ⟨m.1, m.2.1, protoRel⟩

structure FetchContext where
  crawlId : String
  depth : Nat
  statusCode : Int
  contentType : String
  responseTime : Int
  size : Nat
  isInternal : Bool
  linkedFrom : List String
  redirects : List String
deriving DecidableEq, Repr

/-- The full extracted PageRecord (part_002 lines 791-845). -/
structure PageData where
  url : String
  crawlId : String
  statusCode : Int
  contentType : String
  responseTime : Int
  size : Nat
  redirects : List String
  depth : Nat
  isInternal : Bool
  linkedFrom : List String
  title : String
  metaDescription : String
  h1 : String
  h2 : List String
  h3 : List String
  wordCount : Nat
  lang : String
  charset : String
  metaTags : List (String × String)
  viewport : String
  robots : String
  author : String
  keywords : String
  generator : String
  themeColor : String
  canonicalUrl : String
  jsonLd : List JsonValue
  schemaOrg : List SchemaItem
  ogTags : List (String × String)
  twitterTags : List (String × String)
  securityHeaders : SecurityHeaders
  headingCounts : HeadingCounts
  headingHierarchy : List String
  headingSequentialErrors : List String
  linkMetrics : LinkMetrics
  analytics : Analytics
  images : List ImageData
  internalLinks : Nat
  externalLinks : Nat
  hreflang : List HreflangLink
  crawledAt : String
  error : Option String
deriving DecidableEq, Repr

/-- `ContentExtractor.extract` (part_002 lines 754-848).  `jsonParse` is the
platform `JSON.parse` (an arbitrary pure function); `doc` is the cheerio
document for `html`; `now` is the clock reading taken by
`new Date().toISOString()`.  `none` models the `new URL(baseUrl)` throw inside
the link helpers for an unparsable page URL (never hit during a crawl). -/
def ContentExtractor.extract (jsonParse : String → Option JsonValue)
    (url : String) (html : String) (doc : List HNode) (context : FetchContext)
    (response : Option Response) (now : String) : Option PageData :=
  match parseURL url with
  | none => none
  | some base =>
    let basicSeo := extractBasicSeo doc
    let metaTags := extractMetaTags doc
    let structuredData := extractStructuredData jsonParse doc
    let socialTags := extractSocialTags doc
    let linkCounts := countLinks doc base
    let headingStructure := extractHeadingStructure doc
    let linkMetrics := extractLinkSecurityMetrics doc base
    let securityHeaders := match response with
      | some r => extractSecurityHeaders r
      | none => ⟨none, none, none, none⟩
    let actualResponseTime := match response with
      | some r => match r.timingsTotal with
        | some t => if t != 0 then t else context.responseTime
        | none => context.responseTime
      | none => context.responseTime
    some
      { url := url
        crawlId := context.crawlId
        statusCode := context.statusCode
        contentType := context.contentType
        responseTime := actualResponseTime
        size := context.size
        redirects := context.redirects
        depth := context.depth
        isInternal := context.isInternal
        linkedFrom := context.linkedFrom
        title := basicSeo.title
        metaDescription := basicSeo.metaDescription
        h1 := basicSeo.h1
        h2 := basicSeo.h2
        h3 := basicSeo.h3
        wordCount := basicSeo.wordCount
        lang := basicSeo.lang
        charset := basicSeo.charset
        metaTags := metaTags.metaTags
        viewport := metaTags.viewport
        robots := metaTags.robots
        author := metaTags.author
        keywords := metaTags.keywords
        generator := metaTags.generator
        themeColor := metaTags.themeColor
        canonicalUrl := metaTags.canonicalUrl
        jsonLd := structuredData.1
        schemaOrg := structuredData.2
        ogTags := socialTags.1
        twitterTags := socialTags.2
        securityHeaders := securityHeaders
        headingCounts := headingStructure.counts
        headingHierarchy := headingStructure.hierarchy
        headingSequentialErrors := headingStructure.errors
        linkMetrics := linkMetrics
        analytics := extractAnalytics html
        images := extractImages doc base
        internalLinks := linkCounts.1
        externalLinks := linkCounts.2
        hreflang := extractHreflang doc
        crawledAt := now
        error := none }

/-! ## Spec-side definitions used to state the claims -/

/-- The normalization contract exactly as the spec words it (for the
refinement comparison of claim C1): strips the fragment, removes a leading
"www." from the host, drops a trailing slash unless the path is the bare
origin, keeps the query, fail-open. -/
def specNormalizeUrl (url : String) : String :=
  match parseURL url with
  | none => url
  | some p =>
    let host := stripWww p.hostname
    let path :=
      if p.pathname == "/" then p.pathname
      else if jsEndsWith p.pathname "/" then jsDropLast p.pathname
      else p.pathname
    p.protocol ++ "//" ++ host ++ path ++ p.search

/-- Well-formed scheme (without the colon): nonempty, alphabetic start,
scheme characters only, already lowercase. -/
def schemeOk (s : String) : Bool :=
  !s.data.isEmpty && (s.data.headD ' ').isAlpha &&
    s.data.all (fun c => isSchemeChar c && c.toLower == c)

/-- Well-formed host: nonempty, host characters only, already lowercase. -/
def hostOk (h : String) : Bool :=
  !h.data.isEmpty && h.data.all (fun c => isHostChar c && c.toLower == c)

/-- Well-formed path: starts with `/`, free of `?` and `#`. -/
def pathOk (p : String) : Bool :=
  p.data.headD ' ' == '/' && p.data.all (fun c => !(c == '?' || c == '#'))

/-- Well-formed search: empty, or `?` followed by a nonempty `#`-free query. -/
def searchOk (q : String) : Bool :=
  q == "" || (q.data.headD ' ' == '?' && decide (2 ≤ q.data.length) &&
    q.data.all (fun c => !(c == '#')))

/-- Well-formed fragment: empty or starting with `#`. -/
def fragOk (f : String) : Bool :=
  f == "" || f.data.headD ' ' == '#'

/-- A sequence of `addDiscovered` calls applied in order (the "later calls"
of claim C3). -/
def applyAdds (um : UrlManager) (ops : List (String × Nat × Option String)) :
    UrlManager :=
  ops.foldl (fun um op => um.addDiscovered op.1 op.2.1 op.2.2) um

/-- The verdict a single ancestor frame gives in the placement walk, as the
spec words it: a footer match on tag, class, or id wins; otherwise a
nav/header tag, or a nav/menu/header keyword in class or id, yields
navigation; otherwise the frame is silent. -/
def frameVerdict (f : Frame) : Option Placement :=
  let tagName := String.mk ((propTagName f.tag).data.map Char.toLower)
  let classes := String.mk (((f.attrs.lookup "class").getD "").data.map Char.toLower)
  let id := String.mk (((f.attrs.lookup "id").getD "").data.map Char.toLower)
  if tagName == "footer" || jsIncludes classes "footer" || jsIncludes id "footer" then
    some .footer
  else if tagName == "nav" || tagName == "header" then
    some .navigation
  else if navKeywords.any (fun keyword => jsIncludes classes keyword || jsIncludes id keyword) then
    some .navigation
  else
    none

/-- The level encoded in a heading tag (`"h3"` ↦ 3). -/
def headingLevel (tag : String) : Nat := natOfDigits (tag.data.drop 1)

/-- The sequential-error entry an adjacent heading pair (previous, current)
emits, if any: only a forward skip of more than one level. -/
def pairError (pair : String × String) : Option String :=
  if headingLevel pair.2 > headingLevel pair.1 + 1 then
    some (pair.2 ++ " after h" ++ toString (headingLevel pair.1) ++ " (skipped levels)")
  else none

/-- Declarative sequential-error emission: walking the heading tags with the
previous level in hand, an entry is emitted exactly for a forward skip of
more than one level (never for the first heading, never for a backward jump). -/
def seqErrs (lastLevel : Nat) : List String → List String
  | [] => []
  | t :: rest =>
    (if lastLevel > 0 ∧ headingLevel t > lastLevel + 1 then
      [t ++ " after h" ++ toString lastLevel ++ " (skipped levels)"]
    else []) ++ seqErrs (headingLevel t) rest

/-- A concrete session configuration (any-link filter) for the concrete
scenarios below. -/
def cfgEx : OrchConfig := ⟨"a.ex", "https://a.ex/", 2, 5, fun _ => true⟩

/-- The seeded initial state of `cfgEx`. -/
def stEx0 : OrchState := initState cfgEx

/-- `cfgEx` after the start page was fetched and yielded one link. -/
def stEx1 : OrchState := processPage cfgEx stEx0 "https://a.ex/" ["https://a.ex/b"]

/-! # Theorems -/

/-! ## List/string helper lemmas -/

theorem takeWhile_append_eq (p : Char → Bool) (l₁ l₂ : List Char)
    (h₁ : ∀ c ∈ l₁, p c = true) (h₂ : ∀ c, l₂.head? = some c → p c = false) :
    (l₁ ++ l₂).takeWhile p = l₁ := by
  induction l₁ with
  | nil =>
    cases l₂ with
    | nil => rfl
    | cons c t => simp [List.takeWhile_cons, h₂ c rfl]
  | cons a t ih =>
    simp [List.takeWhile_cons, h₁ a (by simp),
      ih (fun c hc => h₁ c (by simp [hc]))]

theorem dropWhile_append_eq (p : Char → Bool) (l₁ l₂ : List Char)
    (h₁ : ∀ c ∈ l₁, p c = true) (h₂ : ∀ c, l₂.head? = some c → p c = false) :
    (l₁ ++ l₂).dropWhile p = l₂ := by
  induction l₁ with
  | nil =>
    cases l₂ with
    | nil => rfl
    | cons c t => simp [List.dropWhile_cons, h₂ c rfl]
  | cons a t ih =>
    simp [List.dropWhile_cons, h₁ a (by simp),
      ih (fun c hc => h₁ c (by simp [hc]))]

theorem lookup_append {α : Type} (k : String) (l₁ l₂ : List (String × α)) :
    (l₁ ++ l₂).lookup k = ((l₁.lookup k).or (l₂.lookup k)) := by
  induction l₁ with
  | nil => simp [List.lookup]
  | cons a t ih =>
    obtain ⟨k0, v0⟩ := a
    cases h : k == k0 <;> simp [List.lookup, h, ih, Option.or]

/-! ## C10: saveError / getAllErrors -/

/-- C10: `saveError` binds the error's url into the `crawl_id` column, so a
stored error is returned by `getAllErrors c` exactly when its url equals `c`. -/
theorem saveError_getAllErrors_iff (e : CrawlError) (c : String) :
    getAllErrors (saveError [] e) c = if e.url = c then [e] else [] := by
  by_cases h : e.url = c <;>
    simp [getAllErrors, saveError, orderByTimestamp,
      orderByTimestamp.insertByTimestamp, h]
  subst h
  rfl

/-! ## C7: detectPlacement -/

theorem detectPlacement_cons (f : Frame) (rest : List Frame) :
    detectPlacement (f :: rest) =
      (match frameVerdict f with
       | some p => p
       | none => detectPlacement rest) := by
  simp only [detectPlacement, frameVerdict]
  split_ifs <;> rfl

/-- C7: placement classification walks the ancestor chain outward from the
anchor; the nearest ancestor with a verdict decides, a footer match wins
before a navigation match within the same frame, and the default is body.
In particular a closer footer-classed ancestor beats an outer `<nav>`. -/
theorem detectPlacement_spec :
    (∀ frames : List Frame,
        detectPlacement frames = ((frames.findSome? frameVerdict).getD .body)) ∧
      detectPlacement [⟨"div", [("class", "page-footer")]⟩, ⟨"nav", []⟩] = .footer := by
  constructor
  · intro frames
    induction frames with
    | nil => rfl
    | cons f rest ih =>
      rw [detectPlacement_cons, List.findSome?_cons]
      cases frameVerdict f <;> simp [ih]
  · decide

/-! ## C3: depth is write-once -/

theorem addDiscovered_discovered (um : UrlManager) (u : String) (d : Nat)
    (src : Option String) :
    (um.addDiscovered u d src).discovered =
      if (um.discovered.lookup (normalizeUrl u)).isSome then um.discovered
      else um.discovered ++ [(normalizeUrl u, d)] := by
  cases src <;> rfl

theorem lookup_addDiscovered_mono (um : UrlManager) (u : String) (d : Nat)
    (src : Option String) (k : String) (v : Nat)
    (h : um.discovered.lookup k = some v) :
    (um.addDiscovered u d src).discovered.lookup k = some v := by
  rw [addDiscovered_discovered]
  split
  · exact h
  · rw [lookup_append, h]
    rfl

theorem applyAdds_lookup_mono (ops : List (String × Nat × Option String)) :
    ∀ (um : UrlManager) (k : String) (v : Nat),
      um.discovered.lookup k = some v →
      (applyAdds um ops).discovered.lookup k = some v := by
  induction ops with
  | nil => intro um k v h; exact h
  | cons op rest ih =>
    intro um k v h
    simp only [applyAdds, List.foldl_cons]
    exact ih (um.addDiscovered op.1 op.2.1 op.2.2) k v
      (lookup_addDiscovered_mono um op.1 op.2.1 op.2.2 k v h)

/-- C3: once `addDiscovered(u, d, ·)` has recorded depth `d` for a previously
undiscovered `u`, any sequence of later `addDiscovered` calls (any URLs, any
depths, any sources) leaves `getDepth u` equal to `d`. -/
theorem getDepth_write_once (um : UrlManager) (u : String) (d : Nat)
    (src : Option String) (ops : List (String × Nat × Option String))
    (h : um.isDiscovered u = false) :
    (applyAdds (um.addDiscovered u d src) ops).getDepth u = d := by
  have h0 : um.discovered.lookup (normalizeUrl u) = none := by
    unfold UrlManager.isDiscovered at h
    cases hl : um.discovered.lookup (normalizeUrl u)
    · rfl
    · rw [hl] at h
      simp at h
  have h1 : (um.addDiscovered u d src).discovered.lookup (normalizeUrl u) = some d := by
    rw [addDiscovered_discovered, h0]
    simp [lookup_append, h0, List.lookup]
  have h2 := applyAdds_lookup_mono ops _ _ _ h1
  unfold UrlManager.getDepth
  rw [h2]
  rfl

theorem getDepth_write_once_witness :
    (mkUrlManager "example.com").isDiscovered "https://example.com/a" = false ∧
    (applyAdds ((mkUrlManager "example.com").addDiscovered "https://example.com/a" 1
        (some "https://example.com"))
      [("https://example.com/a", 5, none),
       ("https://example.com/a/", 7, some "https://example.com/b")]).getDepth
      "https://example.com/a" = 1 :=
  ⟨by decide,
   getDepth_write_once (mkUrlManager "example.com") "https://example.com/a" 1
     (some "https://example.com")
     [("https://example.com/a", 5, none),
      ("https://example.com/a/", 7, some "https://example.com/b")]
     (by decide)⟩

/-! ## C8: heading sequential errors -/

theorem strLower_propTagName_heading (t : String) (h : t ∈ headingTags) :
    strLower (propTagName t) = t := by
  simp [headingTags] at h
  rcases h with h | h | h | h | h | h <;> subst h <;> decide

theorem heading_fold (hs : List HNode) :
    ∀ (counts : HeadingCounts) (hierarchy errors : List String) (lastLevel : Nat),
      (∀ n ∈ hs, n.tag ∈ headingTags) →
      (hs.foldl headingStep (counts, hierarchy, errors, lastLevel)).2.1 =
          hierarchy ++ hs.map HNode.tag ∧
        (hs.foldl headingStep (counts, hierarchy, errors, lastLevel)).2.2.1 =
          errors ++ seqErrs lastLevel (hs.map HNode.tag) := by
  induction hs with
  | nil => intro counts hierarchy errors lastLevel _; simp [seqErrs]
  | cons n rest ih =>
    intro counts hierarchy errors lastLevel hmem
    have htag : n.tag ∈ headingTags := hmem n (by simp)
    have hlow : strLower (propTagName n.tag) = n.tag :=
      strLower_propTagName_heading n.tag htag
    have hne : (n.tag == "") = false := by
      simp [headingTags] at htag
      rcases htag with h | h | h | h | h | h <;> rw [h] <;> decide
    have hstep : headingStep (counts, hierarchy, errors, lastLevel) n =
        (bumpCount counts n.tag, hierarchy ++ [n.tag],
         (if lastLevel > 0 && decide (headingLevel n.tag > lastLevel + 1) then
            errors ++ [n.tag ++ " after h" ++ toString lastLevel ++ " (skipped levels)"]
          else errors),
         headingLevel n.tag) := by
      simp only [headingStep, hlow, hne, headingLevel]
      rfl
    simp only [List.foldl_cons, hstep]
    obtain ⟨ihh, ihe⟩ := ih (bumpCount counts n.tag) (hierarchy ++ [n.tag])
      (if lastLevel > 0 && decide (headingLevel n.tag > lastLevel + 1) then
        errors ++ [n.tag ++ " after h" ++ toString lastLevel ++ " (skipped levels)"]
      else errors)
      (headingLevel n.tag)
      (fun m hm => hmem m (by simp [hm]))
    constructor
    · rw [ihh]
      simp
    · rw [ihe]
      simp only [List.map_cons, seqErrs]
      by_cases h1 : lastLevel > 0
      · by_cases h2 : headingLevel n.tag > lastLevel + 1
        · simp [h1, h2]
        · simp [h1, h2]
      · simp [h1]

theorem headingLevel_pos (t : String) (h : t ∈ headingTags) : 0 < headingLevel t := by
  simp [headingTags] at h
  rcases h with h | h | h | h | h | h <;> subst h <;> decide

theorem seqErrs_pos (rest : List String) :
    ∀ t : String, 0 < headingLevel t → (∀ x ∈ rest, 0 < headingLevel x) →
      seqErrs (headingLevel t) rest = ((t :: rest).zip rest).filterMap pairError := by
  induction rest with
  | nil => intro t _ _; rfl
  | cons c cs ih =>
    intro t ht hrest
    have hc : 0 < headingLevel c := hrest c (by simp)
    have ihc := ih c hc (fun x hx => hrest x (by simp [hx]))
    simp only [seqErrs, List.zip_cons_cons, List.filterMap_cons]
    by_cases h2 : headingLevel c > headingLevel t + 1
    · simp [pairError, h2, ht, ihc]
    · simp [pairError, h2, ht, ihc]

/-- C8: the heading-structure extraction emits a sequential-error entry
exactly for each adjacent heading pair whose second level exceeds the first
by more than one (forward skips only; backward jumps emit nothing, and the
first heading never emits). -/
theorem headingSequentialErrors_spec (doc : List HNode) :
    (extractHeadingStructure doc).errors =
      (((extractHeadingStructure doc).hierarchy).zip
        ((extractHeadingStructure doc).hierarchy).tail).filterMap pairError := by
  have hmem : ∀ n ∈ headingEls doc, n.tag ∈ headingTags := by
    intro n hn
    simp only [headingEls, List.mem_filter] at hn
    have := hn.2
    simpa using this
  obtain ⟨hh, he⟩ := heading_fold (headingEls doc) ⟨0, 0, 0, 0, 0, 0⟩ [] [] 0 hmem
  show (extractHeadingStructure doc).errors = _
  unfold extractHeadingStructure
  simp only []
  rw [he, hh]
  simp only [List.nil_append]
  cases htags : (headingEls doc).map HNode.tag with
  | nil => rfl
  | cons t ts =>
    have ht : t ∈ headingTags := by
      have : t ∈ (headingEls doc).map HNode.tag := by rw [htags]; simp
      obtain ⟨m, hm, hmt⟩ := List.mem_map.mp this
      rw [← hmt]; exact hmem m hm
    have hts : ∀ x ∈ ts, 0 < headingLevel x := by
      intro x hx
      have : x ∈ (headingEls doc).map HNode.tag := by rw [htags]; simp [hx]
      obtain ⟨m, hm, hmt⟩ := List.mem_map.mp this
      rw [← hmt]
      exact headingLevel_pos m.tag (hmem m hm)
    show seqErrs 0 (t :: ts) = _
    have h0 : seqErrs 0 (t :: ts) = seqErrs (headingLevel t) ts := by
      simp [seqErrs]
    rw [h0, seqErrs_pos ts t (headingLevel_pos t ht) hts]
    rfl

/-! ## Orchestrator lemmas (towards C2, C4, C6) -/

theorem lookup_some_mem {α : Type} (l : List (String × α)) (k : String) (v : α)
    (h : l.lookup k = some v) : (k, v) ∈ l := by
  induction l with
  | nil => simp [List.lookup] at h
  | cons a t ih =>
    obtain ⟨k0, v0⟩ := a
    cases hb : k == k0 with
    | true =>
      rw [List.lookup, hb] at h
      obtain rfl : v0 = v := by injection h
      have : k = k0 := eq_of_beq hb
      subst this
      simp
    | false =>
      rw [List.lookup, hb] at h
      exact List.mem_cons_of_mem _ (ih h)

theorem addDiscovered_visited (um : UrlManager) (u : String) (d : Nat)
    (src : Option String) : (um.addDiscovered u d src).visited = um.visited := by
  cases src <;> rfl

theorem markVisited_discovered (um : UrlManager) (u : String) :
    (um.markVisited u).discovered = um.discovered := rfl

theorem markVisited_visited_mem (um : UrlManager) (u v : String)
    (hv : v ∈ (um.markVisited u).visited) : v ∈ um.visited ∨ v = normalizeUrl u := by
  unfold UrlManager.markVisited at hv
  by_cases h : normalizeUrl u ∈ um.visited
  · simp [h] at hv
    exact Or.inl hv
  · simp [h] at hv
    rcases hv with hv | hv
    · exact Or.inl hv
    · exact Or.inr hv

theorem addDiscovered_self_isSome (um : UrlManager) (u : String) (d : Nat)
    (src : Option String) :
    ((um.addDiscovered u d src).discovered.lookup (normalizeUrl u)).isSome = true := by
  rw [addDiscovered_discovered]
  by_cases h : (um.discovered.lookup (normalizeUrl u)).isSome
  · simp [h]
  · have hn : um.discovered.lookup (normalizeUrl u) = none := by
      cases hl : um.discovered.lookup (normalizeUrl u)
      · rfl
      · rw [hl] at h
        simp at h
    simp [h, lookup_append, hn, List.lookup]

theorem lookup_isSome_addDiscovered_mono (um : UrlManager) (u : String) (d : Nat)
    (src : Option String) (k : String)
    (h : (um.discovered.lookup k).isSome = true) :
    ((um.addDiscovered u d src).discovered.lookup k).isSome = true := by
  obtain ⟨v, hv⟩ := Option.isSome_iff_exists.mp h
  rw [lookup_addDiscovered_mono um u d src k v hv]
  rfl

theorem addDiscovered_mem_cases (um : UrlManager) (u : String) (d : Nat)
    (src : Option String) (p : String × Nat)
    (hp : p ∈ (um.addDiscovered u d src).discovered) :
    p ∈ um.discovered ∨ p = (normalizeUrl u, d) := by
  rw [addDiscovered_discovered] at hp
  split at hp
  · exact Or.inl hp
  · rcases List.mem_append.mp hp with h | h
    · exact Or.inl h
    · simp at h
      exact Or.inr (by rw [h])

theorem linkStep_cases (cfg : OrchConfig) (cd : Nat) (pu : String)
    (um : UrlManager) (toAdd : List String) (sk : Nat) (link : String) :
    linkStep cfg cd pu (um, toAdd, sk) link =
      if cfg.shouldCrawl link then
        (if cd < cfg.maxDepth then
          ((if um.isDiscovered link then um
            else um.addDiscovered link (cd + 1) (some pu)), toAdd ++ [link], sk)
        else (um, toAdd, sk + 1))
      else (um, toAdd, sk + 1) := rfl

theorem foldl_linkStep_lookup_mono (cfg : OrchConfig) (cd : Nat) (pu : String)
    (links : List String) :
    ∀ (um : UrlManager) (toAdd : List String) (sk : Nat) (k : String) (v : Nat),
      um.discovered.lookup k = some v →
      ((links.foldl (linkStep cfg cd pu) (um, toAdd, sk)).1).discovered.lookup k = some v := by
  induction links with
  | nil => intro um toAdd sk k v h; exact h
  | cons l rest ih =>
    intro um toAdd sk k v h
    rw [List.foldl_cons, linkStep_cases]
    split_ifs with h1 h2 h3
    · exact ih _ _ _ _ _ h
    · exact ih _ _ _ _ _ (lookup_addDiscovered_mono _ _ _ _ _ _ h)
    · exact ih _ _ _ _ _ h
    · exact ih _ _ _ _ _ h

theorem foldl_linkStep_isSome_mono (cfg : OrchConfig) (cd : Nat) (pu : String)
    (links : List String) (um : UrlManager) (toAdd : List String) (sk : Nat)
    (k : String) (h : (um.discovered.lookup k).isSome = true) :
    (((links.foldl (linkStep cfg cd pu) (um, toAdd, sk)).1).discovered.lookup k).isSome = true := by
  obtain ⟨v, hv⟩ := Option.isSome_iff_exists.mp h
  rw [foldl_linkStep_lookup_mono cfg cd pu links um toAdd sk k v hv]
  rfl

theorem foldl_linkStep_visited (cfg : OrchConfig) (cd : Nat) (pu : String)
    (links : List String) :
    ∀ (um : UrlManager) (toAdd : List String) (sk : Nat),
      ((links.foldl (linkStep cfg cd pu) (um, toAdd, sk)).1).visited = um.visited := by
  induction links with
  | nil => intro um toAdd sk; rfl
  | cons l rest ih =>
    intro um toAdd sk
    rw [List.foldl_cons, linkStep_cases]
    split_ifs with h1 h2 h3
    · exact ih _ _ _
    · rw [ih _ _ _, addDiscovered_visited]
    · exact ih _ _ _
    · exact ih _ _ _

theorem foldl_linkStep_toAdd_disc (cfg : OrchConfig) (cd : Nat) (pu : String)
    (links : List String) :
    ∀ (um : UrlManager) (toAdd : List String) (sk : Nat),
      (∀ x ∈ toAdd, (um.discovered.lookup (normalizeUrl x)).isSome = true) →
      ∀ x ∈ (links.foldl (linkStep cfg cd pu) (um, toAdd, sk)).2.1,
        (((links.foldl (linkStep cfg cd pu) (um, toAdd, sk)).1).discovered.lookup
          (normalizeUrl x)).isSome = true := by
  induction links with
  | nil => intro um toAdd sk hacc x hx; exact hacc x hx
  | cons l rest ih =>
    intro um toAdd sk hacc x hx
    rw [List.foldl_cons, linkStep_cases] at hx ⊢
    split_ifs at hx ⊢ with h1 h2 h3
    · refine ih _ _ _ ?_ x hx
      intro y hy
      rcases List.mem_append.mp hy with hy | hy
      · exact hacc y hy
      · simp at hy
        subst hy
        exact h3
    · refine ih _ _ _ ?_ x hx
      intro y hy
      rcases List.mem_append.mp hy with hy | hy
      · exact lookup_isSome_addDiscovered_mono _ _ _ _ _ (hacc y hy)
      · simp at hy
        subst hy
        exact addDiscovered_self_isSome _ _ _ _
    · exact ih _ _ _ hacc x hx
    · exact ih _ _ _ hacc x hx

theorem foldl_linkStep_depth_bound (cfg : OrchConfig) (cd : Nat) (pu : String)
    (links : List String) :
    ∀ (um : UrlManager) (toAdd : List String) (sk : Nat),
      (∀ p ∈ um.discovered, p.2 ≤ cfg.maxDepth) →
      ∀ p ∈ ((links.foldl (linkStep cfg cd pu) (um, toAdd, sk)).1).discovered,
        p.2 ≤ cfg.maxDepth := by
  induction links with
  | nil => intro um toAdd sk hb p hp; exact hb p hp
  | cons l rest ih =>
    intro um toAdd sk hb p hp
    rw [List.foldl_cons, linkStep_cases] at hp
    split_ifs at hp with h1 h2 h3
    · exact ih _ _ _ hb p hp
    · refine ih _ _ _ ?_ p hp
      intro q hq
      rcases addDiscovered_mem_cases _ _ _ _ q hq with hq | hq
      · exact hb q hq
      · rw [hq]
        exact Nat.succ_le_of_lt h2
    · exact ih _ _ _ hb p hp
    · exact ih _ _ _ hb p hp

theorem processPage_um (cfg : OrchConfig) (st : OrchState) (u : String)
    (links : List String) :
    (processPage cfg st u links).um =
      (links.foldl (linkStep cfg ((st.um.markVisited u).getDepth u) u)
        (st.um.markVisited u, [], 0)).1 := rfl

theorem processPage_queue (cfg : OrchConfig) (st : OrchState) (u : String)
    (links : List String) :
    (processPage cfg st u links).queue =
      st.queue.erase u ++
        (links.foldl (linkStep cfg ((st.um.markVisited u).getDepth u) u)
          (st.um.markVisited u, [], 0)).2.1 := rfl

theorem processPage_pages (cfg : OrchConfig) (st : OrchState) (u : String)
    (links : List String) :
    (processPage cfg st u links).pages =
      st.pages ++ [⟨u, (st.um.markVisited u).getDepth u⟩] := rfl

theorem processPage_handled (cfg : OrchConfig) (st : OrchState) (u : String)
    (links : List String) :
    (processPage cfg st u links).handled = st.handled + 1 := rfl

/-- The single inductive invariant of a crawl session: every queued URL is
discovered, visited ⊆ discovered, all recorded depths are ≤ maxDepth, every
PageRecord depth is ≤ maxDepth, and PageRecords never outnumber handled
requests, which never exceed maxPages. -/
theorem orch_invariant (cfg : OrchConfig) (st : OrchState)
    (h : OrchReachable cfg st) :
    (∀ q ∈ st.queue, (st.um.discovered.lookup (normalizeUrl q)).isSome = true) ∧
    (∀ v ∈ st.um.visited, (st.um.discovered.lookup v).isSome = true) ∧
    (∀ p ∈ st.um.discovered, p.2 ≤ cfg.maxDepth) ∧
    (∀ p ∈ st.pages, p.depth ≤ cfg.maxDepth) ∧
    st.pages.length ≤ st.handled ∧ st.handled ≤ cfg.maxPages := by
  induction h with
  | refl =>
    refine ⟨?_, ?_, ?_, ?_, ?_, ?_⟩
    · intro q hq
      simp [initState] at hq
      subst hq
      exact addDiscovered_self_isSome _ _ _ _
    · intro v hv
      rw [show (initState cfg).um = (mkUrlManager cfg.baseDomain).addDiscovered cfg.startUrl 0 none from rfl,
        addDiscovered_visited] at hv
      simp [mkUrlManager] at hv
    · intro p hp
      rw [show (initState cfg).um = (mkUrlManager cfg.baseDomain).addDiscovered cfg.startUrl 0 none from rfl] at hp
      rcases addDiscovered_mem_cases _ _ _ _ p hp with hp | hp
      · simp [mkUrlManager] at hp
      · rw [hp]
        exact Nat.zero_le _
    · intro p hp
      simp [initState] at hp
    · exact Nat.le_refl 0
    · exact Nat.zero_le _
  | tail hab hstep ih =>
    obtain ⟨ihq, ihv, ihd, ihp, ihlen, ihcap⟩ := ih
    rename_i st stNext
    cases hstep with
    | fetch u links hu hcap =>
      have humdisc : (st.um.markVisited u).discovered = st.um.discovered :=
        markVisited_discovered st.um u
      refine ⟨?_, ?_, ?_, ?_, ?_, ?_⟩
      · intro q hq
        rw [processPage_queue] at hq
        rw [processPage_um]
        rcases List.mem_append.mp hq with hq | hq
        · exact foldl_linkStep_isSome_mono _ _ _ _ _ _ _ _
            (by rw [humdisc]; exact ihq q (List.mem_of_mem_erase hq))
        · exact foldl_linkStep_toAdd_disc _ _ _ _ _ _ _
            (fun x hx => absurd hx (List.not_mem_nil x)) q hq
      · intro v hv
        rw [processPage_um] at hv ⊢
        rw [foldl_linkStep_visited] at hv
        rcases markVisited_visited_mem st.um u v hv with hv | hv
        · exact foldl_linkStep_isSome_mono _ _ _ _ _ _ _ _
            (by rw [humdisc]; exact ihv v hv)
        · subst hv
          exact foldl_linkStep_isSome_mono _ _ _ _ _ _ _ _
            (by rw [humdisc]; exact ihq u hu)
      · intro p hp
        rw [processPage_um] at hp
        exact foldl_linkStep_depth_bound _ _ _ _ _ _ _
          (by rw [humdisc]; exact ihd) p hp
      · intro p hp
        rw [processPage_pages] at hp
        rcases List.mem_append.mp hp with hp | hp
        · exact ihp p hp
        · simp at hp
          subst hp
          show (st.um.markVisited u).getDepth u ≤ cfg.maxDepth
          unfold UrlManager.getDepth
          rw [humdisc]
          cases hl : st.um.discovered.lookup (normalizeUrl u) with
          | none => exact Nat.zero_le _
          | some v =>
            have := ihd (normalizeUrl u, v) (lookup_some_mem _ _ _ hl)
            simpa using this
      · rw [processPage_pages, processPage_handled]
        simpa using Nat.add_le_add_right ihlen 1
      · rw [processPage_handled]
        exact Nat.succ_le_of_lt hcap
    | fail u hu hcap =>
      refine ⟨?_, ?_, ?_, ?_, ?_, ?_⟩
      · intro q hq
        exact ihq q (List.mem_of_mem_erase hq)
      · exact ihv
      · exact ihd
      · exact ihp
      · exact Nat.le_succ_of_le ihlen
      · exact Nat.succ_le_of_lt hcap

/-! ## C4: visited ⊆ discovered -/

/-- C4: in every reachable state of a crawl session, the visited set is a
subset of the discovered set — every URL on which `markVisited` was called
(after normalization) is a key of the discovered map. -/
theorem visited_subset_discovered (cfg : OrchConfig) (st : OrchState)
    (h : OrchReachable cfg st) :
    ∀ v ∈ st.um.visited, (st.um.discovered.lookup v).isSome = true :=
  (orch_invariant cfg st h).2.1

theorem visited_subset_discovered_witness :
    (stEx1.um.discovered.lookup "https://a.ex").isSome = true :=
  visited_subset_discovered cfgEx stEx1
    (Relation.ReflTransGen.single
      (OrchStep.fetch stEx0 "https://a.ex/" ["https://a.ex/b"] (by decide) (by decide)))
    "https://a.ex" (by decide)

/-! ## C6: depth and page caps -/

/-- C6: in every reachable state, no PageRecord carries a depth above
`maxDepth` and the number of PageRecords never exceeds `maxPages` (the page
cap is the scheduler's `maxRequestsPerCrawl`, modelled per the spec). -/
theorem pageRecords_bounded (cfg : OrchConfig) (st : OrchState)
    (h : OrchReachable cfg st) :
    (∀ p ∈ st.pages, p.depth ≤ cfg.maxDepth) ∧ st.pages.length ≤ cfg.maxPages :=
  ⟨(orch_invariant cfg st h).2.2.2.1,
   Nat.le_trans (orch_invariant cfg st h).2.2.2.2.1
     (orch_invariant cfg st h).2.2.2.2.2⟩

theorem pageRecords_bounded_witness : stEx1.pages.length ≤ cfgEx.maxPages :=
  (pageRecords_bounded cfgEx stEx1
    (Relation.ReflTransGen.single
      (OrchStep.fetch stEx0 "https://a.ex/" ["https://a.ex/b"] (by decide) (by decide)))).2

/-! ## C2: what gets enqueued -/

theorem foldl_linkStep_toAdd_mem (cfg : OrchConfig) (cd : Nat) (pu : String)
    (links : List String) :
    ∀ (um : UrlManager) (toAdd : List String) (sk : Nat) (t : String),
      t ∈ (links.foldl (linkStep cfg cd pu) (um, toAdd, sk)).2.1 ↔
        t ∈ toAdd ∨ (t ∈ links ∧ cfg.shouldCrawl t = true ∧ cd < cfg.maxDepth) := by
  induction links with
  | nil => intro um toAdd sk t; simp
  | cons l rest ih =>
    intro um toAdd sk t
    rw [List.foldl_cons, linkStep_cases]
    split_ifs with h1 h2 h3 <;> rw [ih] <;>
      simp only [List.mem_append, List.mem_singleton, List.mem_cons] <;>
      (try aesop) <;> omega

/-- C2 (amended): in `processPage` an extracted link is handed to
`crawler.addRequests` exactly when it passes the filter and the current
page's depth is below `maxDepth` — regardless of whether it is already
discovered; the `isDiscovered` check gates only Frontier registration, and
fetch de-duplication is delegated to the external request queue. -/
theorem enqueuedLinks_mem_iff (cfg : OrchConfig) (st : OrchState) (u t : String)
    (links : List String) :
    t ∈ enqueuedLinks cfg st u links ↔
      t ∈ links ∧ cfg.shouldCrawl t = true ∧
        (st.um.markVisited u).getDepth u < cfg.maxDepth := by
  unfold enqueuedLinks processLinks
  rw [foldl_linkStep_toAdd_mem]
  simp

/-- C2 counterexample: in the reachable state `stEx1`, processing page
"https://a.ex/b" with the extracted link "https://a.ex/" — a link that passes
the filter and whose URL is already discovered — still enqueues that link. -/
theorem enqueued_despite_discovered :
    OrchReachable cfgEx stEx1 ∧
    stEx1.um.isDiscovered "https://a.ex/" = true ∧
    cfgEx.shouldCrawl "https://a.ex/" = true ∧
    "https://a.ex/" ∈ enqueuedLinks cfgEx stEx1 "https://a.ex/b" ["https://a.ex/"] :=
  ⟨Relation.ReflTransGen.single
    (OrchStep.fetch stEx0 "https://a.ex/" ["https://a.ex/b"] (by decide) (by decide)),
   by decide, rfl, by decide⟩

/-! ## C5: extractor determinism and the clock -/

/-- C5 (amended): for fixed HTML, document, fetch context, and platform JSON
parser, two invocations of `ContentExtractor.extract` agree on every field
except `crawledAt`, which records the invocation's clock reading
(`new Date().toISOString()`). -/
theorem extract_clock_only (jsonParse : String → Option JsonValue)
    (url html : String) (doc : List HNode) (context : FetchContext)
    (response : Option Response) (now₁ now₂ : String) :
    ContentExtractor.extract jsonParse url html doc context response now₁ =
      (ContentExtractor.extract jsonParse url html doc context response now₂).map
        (fun r => { r with crawledAt := now₁ }) := by
  unfold ContentExtractor.extract
  cases parseURL url <;> rfl

/-- C5 counterexample: with identical HTML and fetch context, two invocations
at different clock readings return different PageRecords (the `crawledAt`
field differs). -/
theorem extract_not_identical_across_invocations :
    ContentExtractor.extract (fun _ => none) "https://a.ex/" "" []
        ⟨"crawl1", 0, 200, "text/html", 0, 0, true, [], []⟩ none
        "2026-01-01T00:00:00.000Z" ≠
      ContentExtractor.extract (fun _ => none) "https://a.ex/" "" []
        ⟨"crawl1", 0, 200, "text/html", 0, 0, true, [], []⟩ none
        "2026-01-01T00:00:01.000Z" := by
  decide

/-! ## Character and string groundwork for the URL theorems -/

theorem char_toNat_ofNat_valid (n : Nat) (h : n.isValidChar) :
    (Char.ofNat n).toNat = n := by
  unfold Char.ofNat
  rw [dif_pos h]
  unfold Char.ofNatAux
  simp [Char.toNat, UInt32.toNat, BitVec.toNat_ofNatLt]

theorem char_toLower_idem (c : Char) : (Char.toLower c).toLower = Char.toLower c := by
  unfold Char.toLower
  by_cases h : c.toNat ≥ 65 ∧ c.toNat ≤ 90
  · rw [if_pos h]
    have hv : (c.toNat + 32).isValidChar := by
      left
      omega
    rw [char_toNat_ofNat_valid _ hv]
    have hno : ¬(c.toNat + 32 ≥ 65 ∧ c.toNat + 32 ≤ 90) := by omega
    rw [if_neg hno]
  · rw [if_neg h, if_neg h]

theorem char_toLower_or (c : Char) :
    Char.toLower c = c ∨
      (97 ≤ (Char.toLower c).toNat ∧ (Char.toLower c).toNat ≤ 122) := by
  unfold Char.toLower
  by_cases h : c.toNat ≥ 65 ∧ c.toNat ≤ 90
  · rw [if_pos h]
    right
    have hv : (c.toNat + 32).isValidChar := by
      left
      omega
    rw [char_toNat_ofNat_valid _ hv]
    omega
  · rw [if_neg h]
    exact Or.inl rfl

theorem char_isLower_iff (c : Char) : c.isLower = true ↔ 97 ≤ c.toNat ∧ c.toNat ≤ 122 := by
  simp [Char.isLower, UInt32.le_def, BitVec.le_def, Char.toNat, UInt32.toNat]

theorem char_toNat_inj_ne (c d : Char) (h : c.toNat ≠ d.toNat) : c ≠ d := by
  intro he
  exact h (congrArg Char.toNat he)

theorem isAlpha_toLower (c : Char) (h : c.isAlpha = true) :
    (Char.toLower c).isAlpha = true := by
  rcases char_toLower_or c with hc | hc
  · rw [hc]
    exact h
  · have : (Char.toLower c).isLower = true := (char_isLower_iff _).mpr hc
    simp [Char.isAlpha, this]

theorem isSchemeChar_toLower (c : Char) (h : isSchemeChar c = true) :
    isSchemeChar (Char.toLower c) = true := by
  rcases char_toLower_or c with hc | hc
  · rw [hc]
    exact h
  · have : (Char.toLower c).isLower = true := (char_isLower_iff _).mpr hc
    simp [isSchemeChar, Char.isAlpha, this]

theorem isHostChar_lower_range (d : Char) (h97 : 97 ≤ d.toNat) (h122 : d.toNat ≤ 122) :
    isHostChar d = true := by
  have ne : ∀ c : Char, c.toNat ≠ d.toNat → (d == c) = false := by
    intro c hc
    exact beq_eq_false_iff_ne.mpr (fun he => hc (congrArg Char.toNat he).symm)
  simp only [isHostChar]
  rw [ne '/' (by intro hx; rw [show ('/' : Char).toNat = 47 from rfl] at hx; omega),
    ne '?' (by intro hx; rw [show ('?' : Char).toNat = 63 from rfl] at hx; omega),
    ne '#' (by intro hx; rw [show ('#' : Char).toNat = 35 from rfl] at hx; omega),
    ne ':' (by intro hx; rw [show (':' : Char).toNat = 58 from rfl] at hx; omega),
    ne '@' (by intro hx; rw [show ('@' : Char).toNat = 64 from rfl] at hx; omega),
    ne '\\' (by intro hx; rw [show ('\\' : Char).toNat = 92 from rfl] at hx; omega),
    ne '[' (by intro hx; rw [show ('[' : Char).toNat = 91 from rfl] at hx; omega),
    ne ']' (by intro hx; rw [show (']' : Char).toNat = 93 from rfl] at hx; omega)]
  rfl

theorem isHostChar_toLower (c : Char) (h : isHostChar c = true) :
    isHostChar (Char.toLower c) = true := by
  rcases char_toLower_or c with hc | hc
  · rw [hc]
    exact h
  · exact isHostChar_lower_range _ hc.1 hc.2

theorem map_toLower_self (l : List Char) (h : ∀ c ∈ l, Char.toLower c = c) :
    l.map Char.toLower = l := by
  induction l with
  | nil => rfl
  | cons c t ih =>
    rw [List.map_cons, h c (by simp), ih (fun d hd => h d (by simp [hd]))]

theorem string_eq_of_data (a b : String) (h : a.data = b.data) : a = b := by
  cases a
  cases b
  exact congrArg String.mk h


theorem schemeOk_unpack (s : String) (h : schemeOk s = true) :
    s.data ≠ [] ∧ (s.data.headD ' ').isAlpha = true ∧
      ∀ c ∈ s.data, isSchemeChar c = true ∧ Char.toLower c = c := by
  simp only [schemeOk, Bool.and_eq_true, List.all_eq_true] at h
  refine ⟨?_, h.1.2, ?_⟩
  · intro he
    rw [he] at h
    simpa using h.1.1
  · intro c hc
    have hcc := h.2 c hc
    exact ⟨hcc.1, by simpa using hcc.2⟩

theorem hostOk_unpack (s : String) (h : hostOk s = true) :
    s.data ≠ [] ∧ ∀ c ∈ s.data, isHostChar c = true ∧ Char.toLower c = c := by
  simp only [hostOk, Bool.and_eq_true, List.all_eq_true] at h
  refine ⟨?_, ?_⟩
  · intro he
    rw [he] at h
    simpa using h.1
  · intro c hc
    have hcc := h.2 c hc
    exact ⟨hcc.1, by simpa using hcc.2⟩

theorem pathOk_unpack (s : String) (h : pathOk s = true) :
    (∃ pt, s.data = '/' :: pt) ∧
      ∀ c ∈ s.data, (!(c == '?' || c == '#')) = true := by
  simp only [pathOk, Bool.and_eq_true, List.all_eq_true] at h
  constructor
  · cases hd : s.data with
    | nil =>
      rw [hd] at h
      simp [List.headD] at h
    | cons c t =>
      have hch := h.1
      rw [hd] at hch
      simp [List.headD] at hch
      exact ⟨t, by rw [hch]⟩
  · exact h.2

theorem searchOk_unpack (s : String) (h : searchOk s = true) :
    s.data = [] ∨ (∃ qt, s.data = '?' :: qt ∧ qt ≠ [] ∧
      ∀ c ∈ qt, (c == '#') = false) := by
  simp only [searchOk, Bool.or_eq_true, Bool.and_eq_true, List.all_eq_true] at h
  rcases h with h | h
  · left
    have : s = "" := by simpa using h
    rw [this]
  · right
    obtain ⟨⟨hhead, hlen⟩, hall⟩ := h
    cases hd : s.data with
    | nil =>
      rw [hd] at hlen
      simp at hlen
    | cons c t =>
      have hch : c = '?' := by
        rw [hd] at hhead
        simpa [List.headD] using hhead
      refine ⟨t, by rw [hch], ?_, ?_⟩
      · intro he
        rw [hd, he] at hlen
        simp at hlen
      · intro d hdm
        have := hall d (by rw [hd]; exact List.mem_cons_of_mem c hdm)
        simpa using this

theorem fragOk_unpack (s : String) (h : fragOk s = true) :
    s.data = [] ∨ ∃ ft, s.data = '#' :: ft := by
  simp only [fragOk, Bool.or_eq_true] at h
  rcases h with h | h
  · left
    have : s = "" := by simpa using h
    rw [this]
  · cases hd : s.data with
    | nil => exact Or.inl rfl
    | cons c t =>
      right
      have hch : c = '#' := by
        rw [hd] at h
        simpa [List.headD] using h
      exact ⟨t, by rw [hch]⟩

theorem data_srr : ("://" : String).data = [':', '/', '/'] := rfl

theorem qsfrag_head (qs frag : String) (hq : searchOk qs = true)
    (hf : fragOk frag = true) :
    ∀ c, (qs.data ++ frag.data).head? = some c → (!(c == '?' || c == '#')) = false := by
  intro c hc
  rcases searchOk_unpack qs hq with hq0 | ⟨qt, hqt, _, _⟩
  · rcases fragOk_unpack frag hf with hf0 | ⟨ft, hft⟩
    · rw [hq0, hf0] at hc
      simp at hc
    · rw [hq0, hft] at hc
      simp at hc
      rw [← hc]
      rfl
  · rw [hqt] at hc
    simp at hc
    rw [← hc]
    rfl

theorem parsePathSearch_spec (path qs frag : String)
    (hp : pathOk path = true) (hq : searchOk qs = true)
    (hf : fragOk frag = true) :
    parsePathSearch (path.data ++ (qs.data ++ frag.data)) = (path, qs) := by
  obtain ⟨⟨pt, hpt⟩, hpall⟩ := pathOk_unpack path hp
  have htwp : (path.data ++ (qs.data ++ frag.data)).takeWhile
      (fun c => !(c == '?' || c == '#')) = path.data :=
    takeWhile_append_eq _ _ _ hpall (qsfrag_head qs frag hq hf)
  have hdwp : (path.data ++ (qs.data ++ frag.data)).dropWhile
      (fun c => !(c == '?' || c == '#')) = qs.data ++ frag.data :=
    dropWhile_append_eq _ _ _ hpall (qsfrag_head qs frag hq hf)
  rw [hpt, List.cons_append] at htwp hdwp ⊢
  rw [parsePathSearch]
  simp only [show (('/' : Char) == '/') = true from rfl, if_true, htwp, hdwp]
  rcases searchOk_unpack qs hq with hq0 | ⟨qt, hqt, hqtne, hqall⟩
  · have hqs : qs = "" := string_eq_of_data qs "" hq0
    rcases fragOk_unpack frag hf with hf0 | ⟨ft, hft⟩
    · rw [hq0, hf0, hqs, ← hpt, string_mk_data]
      rfl
    · rw [hq0, hft, hqs, ← hpt, string_mk_data]
      rfl
  · rw [hqt, List.cons_append]
    have htwq : (qt ++ frag.data).takeWhile (fun c => !(c == '#')) = qt := by
      refine takeWhile_append_eq _ _ _ ?_ ?_
      · intro c hc
        simp [hqall c hc]
      · intro c hc
        rcases fragOk_unpack frag hf with hf0 | ⟨ft, hft⟩
        · rw [hf0] at hc
          simp at hc
        · rw [hft] at hc
          simp at hc
          rw [← hc]
          rfl
    show ((String.mk ('/' :: pt) : String),
      if ((qt ++ frag.data).takeWhile (fun c => !(c == '#'))).isEmpty = true then ""
      else String.mk ('?' :: (qt ++ frag.data).takeWhile (fun c => !(c == '#')))) = (path, qs)
    rw [htwq]
    have hqe : qt.isEmpty = false := by
      cases qt with
      | nil => exact absurd rfl hqtne
      | cons a b => rfl
    rw [hqe, ← hpt, string_mk_data]
    have hmk : (String.mk ('?' :: qt) : String) = qs := by
      rw [← hqt, string_mk_data]
    simp only [Bool.false_eq_true, if_false, hmk]


theorem parse_render (scheme host path qs frag : String)
    (hs : schemeOk scheme = true) (hh : hostOk host = true)
    (hp : pathOk path = true) (hq : searchOk qs = true)
    (hf : fragOk frag = true) :
    parseURL (scheme ++ "://" ++ host ++ path ++ qs ++ frag) =
      some ⟨scheme ++ ":", host, path, qs⟩ := by
  obtain ⟨hsne, hshead, hsall⟩ := schemeOk_unpack scheme hs
  obtain ⟨hhne, hhall⟩ := hostOk_unpack host hh
  obtain ⟨⟨pt, hpt⟩, hpall⟩ := pathOk_unpack path hp
  obtain ⟨c0, st, hsd⟩ : ∃ c0 st, scheme.data = c0 :: st := by
    cases h : scheme.data with
    | nil => exact absurd h hsne
    | cons a b => exact ⟨a, b, rfl⟩
  have hc0 : c0.isAlpha = true := by
    rw [hsd] at hshead
    simpa using hshead
  have hdata : (scheme ++ "://" ++ host ++ path ++ qs ++ frag).data =
      scheme.data ++ ([':', '/', '/'] ++ (host.data ++ (path.data ++ (qs.data ++ frag.data)))) := by
    simp [string_data_append, data_srr, List.append_assoc]
  have htw : (scheme.data ++ ([':', '/', '/'] ++ (host.data ++ (path.data ++ (qs.data ++ frag.data))))).takeWhile isSchemeChar = scheme.data :=
    takeWhile_append_eq _ _ _ (fun c hc => (hsall c hc).1)
      (by intro c hc; simp at hc; subst hc; rfl)
  have hdw : (scheme.data ++ ([':', '/', '/'] ++ (host.data ++ (path.data ++ (qs.data ++ frag.data))))).dropWhile isSchemeChar = [':', '/', '/'] ++ (host.data ++ (path.data ++ (qs.data ++ frag.data))) :=
    dropWhile_append_eq _ _ _ (fun c hc => (hsall c hc).1)
      (by intro c hc; simp at hc; subst hc; rfl)
  have htwh : (host.data ++ (path.data ++ (qs.data ++ frag.data))).takeWhile isHostChar = host.data :=
    takeWhile_append_eq _ _ _ (fun c hc => (hhall c hc).1)
      (by intro c hc; rw [hpt] at hc; simp at hc; subst hc; rfl)
  have hdwh : (host.data ++ (path.data ++ (qs.data ++ frag.data))).dropWhile isHostChar = path.data ++ (qs.data ++ frag.data) :=
    dropWhile_append_eq _ _ _ (fun c hc => (hhall c hc).1)
      (by intro c hc; rw [hpt] at hc; simp at hc; subst hc; rfl)
  have hhe : host.data.isEmpty = false := by
    cases h : host.data with
    | nil => exact absurd h hhne
    | cons a b => rfl
  simp only [parseURL]
  rw [hdata, htw, hdw, hsd]
  simp only [hc0, Bool.not_true, Bool.false_eq_true, if_false]
  simp only [List.cons_append, List.nil_append]
  rw [htwh, hdwh, hhe]
  simp only [Bool.false_eq_true, if_false]
  rw [hpt]
  simp only [List.cons_append]
  simp only [show (('/' : Char) == '/' || ('/' : Char) == '?' || ('/' : Char) == '#') = true from rfl, if_true]
  rw [← List.cons_append, ← hpt, parsePathSearch_spec path qs frag hp hq hf]
  rw [← hsd]
  rw [map_toLower_self scheme.data (fun c hc => (hsall c hc).2),
      map_toLower_self host.data (fun c hc => (hhall c hc).2)]

theorem string_append_empty (a : String) : a ++ "" = a :=
  string_eq_of_data _ _ (by rw [string_data_append]; exact List.append_nil _)

theorem string_colon_slashes (scheme : String) :
    (scheme ++ ":") ++ "//" = scheme ++ "://" :=
  string_eq_of_data _ _ (by simp [string_data_append])

theorem firstOccurAux_colon_here (rest : List Char) :
    firstOccurAux [':', '/', '/'] (':' :: '/' :: '/' :: rest) = some 0 := by
  rw [firstOccurAux]
  simp [List.isPrefixOf]

theorem firstOccurAux_colon_skip (l₁ : List Char) (l₂ : List Char)
    (h : ∀ c ∈ l₁, c ≠ ':') :
    firstOccurAux [':', '/', '/'] (l₁ ++ l₂) =
      (firstOccurAux [':', '/', '/'] l₂).map (· + l₁.length) := by
  induction l₁ with
  | nil =>
    simp only [List.nil_append, List.length_nil]
    cases firstOccurAux [':', '/', '/'] l₂ <;> simp
  | cons c t ih =>
    have hcne : ((':' : Char) == c) = false :=
      beq_eq_false_iff_ne.mpr (fun he => (h c (by simp)) he.symm)
    rw [List.cons_append, firstOccurAux]
    simp only [List.isPrefixOf, hcne, Bool.false_and, Bool.false_eq_true, if_false]
    rw [ih (fun d hd => h d (by simp [hd]))]
    cases firstOccurAux [':', '/', '/'] l₂ <;> simp <;> omega

theorem scheme_no_colon (scheme : String) (hs : schemeOk scheme = true) :
    ∀ c ∈ scheme.data, c ≠ ':' := by
  obtain ⟨_, _, hsall⟩ := schemeOk_unpack scheme hs
  intro c hc he
  have := (hsall c hc).1
  rw [he] at this
  simp [isSchemeChar] at this

theorem clean_data_shape (scheme host path qs : String) :
    (scheme ++ "://" ++ host ++ path ++ qs).data =
      scheme.data ++ ([':', '/', '/'] ++ (host.data ++ (path.data ++ qs.data))) := by
  simp [string_data_append, data_srr, List.append_assoc]

theorem normalize_cond (scheme host path qs : String)
    (hs : schemeOk scheme = true) (hh : hostOk host = true)
    (hp : pathOk path = true) :
    ((strLen (scheme ++ "://" ++ host ++ path ++ qs) : Int) >
      jsIndexOf (scheme ++ "://" ++ host ++ path ++ qs) "://" + 4) := by
  obtain ⟨hhne, _⟩ := hostOk_unpack host hh
  obtain ⟨⟨pt, hpt⟩, _⟩ := pathOk_unpack path hp
  have hidx : jsIndexOf (scheme ++ "://" ++ host ++ path ++ qs) "://" =
      (scheme.data.length : Int) := by
    unfold jsIndexOf
    rw [show ("://" : String).data = [':', '/', '/'] from rfl, clean_data_shape]
    rw [firstOccurAux_colon_skip _ _ (scheme_no_colon scheme hs)]
    rw [show [':', '/', '/'] ++ (host.data ++ (path.data ++ qs.data)) =
      ':' :: '/' :: '/' :: (host.data ++ (path.data ++ qs.data)) from rfl]
    rw [firstOccurAux_colon_here]
    simp
  have hlen : strLen (scheme ++ "://" ++ host ++ path ++ qs) =
      scheme.data.length + (3 + (host.data.length + (path.data.length + qs.data.length))) := by
    unfold strLen
    rw [clean_data_shape]
    simp [List.length_append]
    omega
  have hh1 : 1 ≤ host.data.length := List.length_pos.mpr hhne
  have hp1 : 1 ≤ path.data.length := by
    rw [hpt]
    simp
  rw [hidx, hlen]
  push_cast
  omega

/-- C1 (amended): on a well-formed hierarchical URL, `normalizeUrl` strips
the fragment, keeps the host verbatim (no "www." stripping), keeps the query,
and drops one trailing slash whenever the fragment-free string ends in one —
including at the bare origin; unparsable input is returned unchanged
(fail-open). -/
theorem normalizeUrl_spec :
    (∀ scheme host path qs frag : String,
        schemeOk scheme = true → hostOk host = true → pathOk path = true →
        searchOk qs = true → fragOk frag = true →
        normalizeUrl (scheme ++ "://" ++ host ++ path ++ qs ++ frag) =
          (if jsEndsWith (scheme ++ "://" ++ host ++ path ++ qs) "/" = true
           then jsDropLast (scheme ++ "://" ++ host ++ path ++ qs)
           else scheme ++ "://" ++ host ++ path ++ qs)) ∧
      (∀ u : String, parseURL u = none → normalizeUrl u = u) := by
  constructor
  · intro scheme host path qs frag hs hh hp hq hf
    have hparse := parse_render scheme host path qs frag hs hh hp hq hf
    unfold normalizeUrl
    rw [hparse]
    have hcl : (scheme ++ ":") ++ "//" ++ host ++ path = scheme ++ "://" ++ host ++ path := by
      rw [string_colon_slashes]
    by_cases hqe : qs = ""
    · subst hqe
      simp only [show (("" : String) != "") = false from rfl, Bool.false_eq_true, if_false]
      rw [hcl]
      have hcond := normalize_cond scheme host path "" hs hh hp
      rw [string_append_empty (scheme ++ "://" ++ host ++ path)] at hcond ⊢
      rw [decide_eq_true hcond, Bool.and_true]
    · have hqne : (qs != "") = true := by
        simp [hqe]
      simp only [hqne, if_true]
      rw [hcl]
      have hcond := normalize_cond scheme host path qs hs hh hp
      rw [decide_eq_true hcond, Bool.and_true]
  · intro u h
    unfold normalizeUrl
    rw [h]

theorem normalizeUrl_spec_witness :
    normalizeUrl ("https" ++ "://" ++ "www.ex.com" ++ "/a/" ++ "" ++ "#f") =
      (if jsEndsWith ("https" ++ "://" ++ "www.ex.com" ++ "/a/" ++ "") "/" = true
       then jsDropLast ("https" ++ "://" ++ "www.ex.com" ++ "/a/" ++ "")
       else "https" ++ "://" ++ "www.ex.com" ++ "/a/" ++ "") ∧
    normalizeUrl "not a url" = "not a url" :=
  ⟨normalizeUrl_spec.1 "https" "www.ex.com" "/a/" "" "#f"
      (by decide) (by decide) (by decide) (by decide) (by decide),
   normalizeUrl_spec.2 "not a url" (by decide)⟩

/-- C1 counterexample: the claim's normalization contract (www-stripping,
trailing slash kept at the bare origin) disagrees with the code: the code
keeps "www." and the spec-modelled contract removes it. -/
theorem normalizeUrl_counterexample :
    normalizeUrl "https://www.example.com/a" ≠ specNormalizeUrl "https://www.example.com/a" ∧
    normalizeUrl "https://www.example.com/a" = "https://www.example.com/a" ∧
    specNormalizeUrl "https://www.example.com/a" = "https://example.com/a" :=
  ⟨by decide, by decide, by decide⟩


theorem dropWhile_head_false {p : Char → Bool} {l : List Char} {c : Char} {cs : List Char}
    (h : l.dropWhile p = c :: cs) : p c = false := by
  induction l with
  | nil => simp at h
  | cons a t ih =>
    rw [List.dropWhile_cons] at h
    by_cases hp : p a
    · rw [if_pos hp] at h
      exact ih h
    · rw [if_neg hp] at h
      have hac : a = c := by
        have := congrArg List.head? h
        simpa using this
      subst hac
      simpa using hp

theorem searchOk_qpart (qsl : List Char) :
    searchOk (if (qsl.takeWhile (fun c => !(c == '#'))).isEmpty = true then ""
      else String.mk ('?' :: qsl.takeWhile (fun c => !(c == '#')))) = true := by
  by_cases hqe : (qsl.takeWhile (fun c => !(c == '#'))).isEmpty = true
  · rw [if_pos hqe]
    decide
  · rw [if_neg hqe]
    obtain ⟨a, b, hab⟩ : ∃ a b, qsl.takeWhile (fun c => !(c == '#')) = a :: b := by
      cases hq : qsl.takeWhile (fun c => !(c == '#')) with
      | nil => rw [hq] at hqe; exact absurd rfl hqe
      | cons a b => exact ⟨a, b, rfl⟩
    simp only [searchOk, Bool.or_eq_true, Bool.and_eq_true, List.all_eq_true]
    right
    refine ⟨⟨by simp [List.headD], ?_⟩, ?_⟩
    · rw [hab]
      simp
    · intro c hc
      simp only [List.mem_cons] at hc
      rcases hc with rfl | hc
      · decide
      · simpa using List.mem_takeWhile_imp hc

theorem parsePathSearch_ok (rest3 : List Char)
    (hshape : rest3 = [] ∨ ∃ d t, rest3 = d :: t ∧ (d = '/' ∨ d = '?' ∨ d = '#')) :
    pathOk (parsePathSearch rest3).1 = true ∧ searchOk (parsePathSearch rest3).2 = true := by
  rcases hshape with h0 | ⟨d, t, hdt, hd⟩
  · subst h0
    exact ⟨by decide, by decide⟩
  · subst hdt
    rcases hd with rfl | rfl | rfl
    · constructor
      · rw [parsePathSearch]
        simp only [show (('/' : Char) == '/') = true from rfl, if_true]
        have hfst : ∀ l : List Char, pathOk (String.mk
            (('/' :: t).takeWhile (fun c => !(c == '?' || c == '#')))) = true → l = l := fun _ _ => rfl
        have hp : pathOk (String.mk
            (('/' :: t).takeWhile (fun c => !(c == '?' || c == '#')))) = true := by
          simp only [pathOk, Bool.and_eq_true, List.all_eq_true]
          constructor
          · rw [List.takeWhile_cons]
            simp [List.headD]
          · intro c hc
            simpa using List.mem_takeWhile_imp hc
        split
        · exact hp
        · exact hp
      · rw [parsePathSearch]
        simp only [show (('/' : Char) == '/') = true from rfl, if_true]
        split
        · exact searchOk_qpart _
        · show searchOk "" = true
          decide
    · rw [parsePathSearch]
      simp only [show (('?' : Char) == '/') = false from rfl, Bool.false_eq_true, if_false,
        show (('?' : Char) == '?') = true from rfl, if_true]
      exact ⟨by decide, searchOk_qpart t⟩
    · rw [parsePathSearch]
      simp only [show (('#' : Char) == '/') = false from rfl,
        show (('#' : Char) == '?') = false from rfl, Bool.false_eq_true, if_false]
      exact ⟨by decide, by decide⟩


theorem schemeOk_of_parse (l : List Char) (c0 : Char) (st : List Char)
    (hl : l.takeWhile isSchemeChar = c0 :: st) (hc0 : c0.isAlpha = true) :
    schemeOk (String.mk ((l.takeWhile isSchemeChar).map Char.toLower)) = true := by
  simp only [schemeOk, Bool.and_eq_true, List.all_eq_true]
  refine ⟨⟨?_, ?_⟩, ?_⟩
  · rw [hl]
    simp
  · rw [hl]
    simp only [List.map_cons, List.headD]
    exact isAlpha_toLower c0 hc0
  · intro c hc
    simp only [List.mem_map] at hc
    obtain ⟨d, hd, hdc⟩ := hc
    subst hdc
    have hds : isSchemeChar d = true := List.mem_takeWhile_imp hd
    exact ⟨isSchemeChar_toLower d hds, by simp [char_toLower_idem d]⟩

theorem hostOk_of_parse (l : List Char) (hne : (l.takeWhile isHostChar).isEmpty = false) :
    hostOk (String.mk ((l.takeWhile isHostChar).map Char.toLower)) = true := by
  simp only [hostOk, Bool.and_eq_true, List.all_eq_true]
  constructor
  · cases h : l.takeWhile isHostChar with
    | nil => rw [h] at hne; simp at hne
    | cons a b => simp [h]
  · intro c hc
    simp only [List.mem_map] at hc
    obtain ⟨d, hd, hdc⟩ := hc
    subst hdc
    have hds : isHostChar d = true := List.mem_takeWhile_imp hd
    exact ⟨isHostChar_toLower d hds, by simp [char_toLower_idem d]⟩

/-- Every successful parse yields well-formed components: the protocol is a
well-formed lowercase scheme plus ":", the host is well-formed and lowercase,
the path starts with "/" and is free of "?" and "#", and the search is empty
or "?" plus a nonempty "#"-free query. -/
theorem parse_partsOk (u : String) (p : URLParts) (h : parseURL u = some p) :
    ∃ s, p.protocol = s ++ ":" ∧ schemeOk s = true ∧ hostOk p.hostname = true ∧
      pathOk p.pathname = true ∧ searchOk p.search = true := by
  simp only [parseURL] at h
  split at h
  · exact absurd h (by simp)
  next c0 st hsc =>
    split at h
    · exact absurd h (by simp)
    next hc0 =>
      have hc0' : c0.isAlpha = true := by
        cases hca : c0.isAlpha
        · rw [hca] at hc0
          simp at hc0
        · rfl
      split at h
      case _ rest2 hrest =>
        split at h
        · exact absurd h (by simp)
        next hhe =>
          have hhe' : (rest2.takeWhile isHostChar).isEmpty = false := by
            cases hb : (rest2.takeWhile isHostChar).isEmpty
            · rfl
            · exact absurd hb hhe
          split at h
          next hdw =>
            obtain rfl : URLParts.mk (String.mk ((u.data.takeWhile isSchemeChar).map Char.toLower) ++ ":")
                (String.mk ((rest2.takeWhile isHostChar).map Char.toLower)) "/" "" = p := by
              injection h
            refine ⟨String.mk ((u.data.takeWhile isSchemeChar).map Char.toLower), rfl,
              schemeOk_of_parse u.data c0 st hsc hc0', hostOk_of_parse rest2 hhe',
              show pathOk "/" = true by decide, show searchOk "" = true by decide⟩
          next d tail hdw =>
            split at h
            next hd =>
              obtain rfl : URLParts.mk (String.mk ((u.data.takeWhile isSchemeChar).map Char.toLower) ++ ":")
                  (String.mk ((rest2.takeWhile isHostChar).map Char.toLower))
                  (parsePathSearch (rest2.dropWhile isHostChar)).1
                  (parsePathSearch (rest2.dropWhile isHostChar)).2 = p := by
                injection h
              have hshape : rest2.dropWhile isHostChar = [] ∨
                  ∃ e t, rest2.dropWhile isHostChar = e :: t ∧ (e = '/' ∨ e = '?' ∨ e = '#') := by
                right
                refine ⟨d, tail, hdw, ?_⟩
                have : (d == '/' || d == '?' || d == '#') = true := by
                  simpa using hd
                rcases Bool.or_eq_true _ _ |>.mp this with h1 | h1
                · rcases Bool.or_eq_true _ _ |>.mp h1 with h2 | h2
                  · exact Or.inl (by simpa using h2)
                  · exact Or.inr (Or.inl (by simpa using h2))
                · exact Or.inr (Or.inr (by simpa using h1))
              obtain ⟨hpok, hsok⟩ := parsePathSearch_ok _ hshape
              exact ⟨String.mk ((u.data.takeWhile isSchemeChar).map Char.toLower), rfl,
                schemeOk_of_parse u.data c0 st hsc hc0', hostOk_of_parse rest2 hhe', hpok, hsok⟩
            · exact absurd h (by simp)
      · exact absurd h (by simp)

theorem suffix_single (c : Char) (l : List Char) :
    ([c].isSuffixOf l) = true ↔ l.getLast? = some c := by
  unfold List.isSuffixOf
  cases hr : l.reverse with
  | nil =>
    have h0 : l.getLast? = none := by
      rw [← List.head?_reverse, hr]
      rfl
    simp [List.isPrefixOf, h0]
  | cons d t =>
    have h0 : l.getLast? = some d := by
      rw [← List.head?_reverse, hr]
      rfl
    simp only [List.reverse_singleton, List.isPrefixOf, Bool.and_true, h0,
      Option.some.injEq]
    constructor
    · intro h
      exact (eq_of_beq h).symm
    · intro h
      rw [h]
      exact beq_self_eq_true c

theorem jsEndsWith_slash (s : String) :
    jsEndsWith s "/" = true ↔ s.data.getLast? = some '/' := suffix_single '/' s.data

theorem jsEndsWith_qmark (s : String) :
    jsEndsWith s "?" = true ↔ s.data.getLast? = some '?' := suffix_single '?' s.data

theorem dropLast_append_right (a b : List Char) (hb : b ≠ []) :
    (a ++ b).dropLast = a ++ b.dropLast := by
  rw [List.dropLast_append]
  have hbe : b.isEmpty = false := by
    cases b with
    | nil => exact absurd rfl hb
    | cons x y => rfl
  rw [hbe]
  simp

theorem getLast?_append_right (a b : List Char) (hb : b ≠ []) :
    (a ++ b).getLast? = b.getLast? := by
  rw [List.getLast?_append]
  obtain ⟨x, hx⟩ : ∃ x, b.getLast? = some x := by
    cases hbb : b.getLast? with
    | none => exact absurd (List.getLast?_eq_none_iff.mp hbb) hb
    | some y => exact ⟨y, rfl⟩
  rw [hx]
  rfl

/-- `normalizeUrl` evaluated through a successful parse: the fragment-free
rendering, with one trailing slash stripped when present. -/
theorem normalizeUrl_eval (u s host path qs : String)
    (hp : parseURL u = some ⟨s ++ ":", host, path, qs⟩)
    (hs : schemeOk s = true) (hh : hostOk host = true) (hpath : pathOk path = true) :
    normalizeUrl u =
      (if jsEndsWith (s ++ "://" ++ host ++ path ++ qs) "/" = true
       then jsDropLast (s ++ "://" ++ host ++ path ++ qs)
       else s ++ "://" ++ host ++ path ++ qs) := by
  unfold normalizeUrl
  rw [hp]
  have hcl : (s ++ ":") ++ "//" ++ host ++ path = s ++ "://" ++ host ++ path := by
    rw [string_colon_slashes]
  by_cases hqe : qs = ""
  · subst hqe
    simp only [show (("" : String) != "") = false from rfl, Bool.false_eq_true, if_false]
    rw [hcl]
    have hcond := normalize_cond s host path "" hs hh hpath
    rw [string_append_empty (s ++ "://" ++ host ++ path)] at hcond ⊢
    rw [decide_eq_true hcond, Bool.and_true]
  · have hqne : (qs != "") = true := by simp [hqe]
    simp only [hqne, if_true]
    rw [hcl]
    have hcond := normalize_cond s host path qs hs hh hpath
    rw [decide_eq_true hcond, Bool.and_true]

theorem parse_render_bare (scheme host : String)
    (hs : schemeOk scheme = true) (hh : hostOk host = true) :
    parseURL (scheme ++ "://" ++ host) = some ⟨scheme ++ ":", host, "/", ""⟩ := by
  obtain ⟨hsne, hshead, hsall⟩ := schemeOk_unpack scheme hs
  obtain ⟨hhne, hhall⟩ := hostOk_unpack host hh
  obtain ⟨c0, st, hsd⟩ : ∃ c0 st, scheme.data = c0 :: st := by
    cases h : scheme.data with
    | nil => exact absurd h hsne
    | cons a b => exact ⟨a, b, rfl⟩
  have hc0 : c0.isAlpha = true := by
    rw [hsd] at hshead
    simpa using hshead
  have hdata : (scheme ++ "://" ++ host).data =
      scheme.data ++ ([':', '/', '/'] ++ host.data) := by
    simp [string_data_append, data_srr, List.append_assoc]
  have htw : (scheme.data ++ ([':', '/', '/'] ++ host.data)).takeWhile isSchemeChar = scheme.data :=
    takeWhile_append_eq _ _ _ (fun c hc => (hsall c hc).1)
      (by intro c hc; simp at hc; subst hc; rfl)
  have hdw : (scheme.data ++ ([':', '/', '/'] ++ host.data)).dropWhile isSchemeChar =
      [':', '/', '/'] ++ host.data :=
    dropWhile_append_eq _ _ _ (fun c hc => (hsall c hc).1)
      (by intro c hc; simp at hc; subst hc; rfl)
  have htwh : host.data.takeWhile isHostChar = host.data := by
    have h0 := takeWhile_append_eq isHostChar host.data [] (fun c hc => (hhall c hc).1)
      (by intro c hc; simp at hc)
    simpa using h0
  have hdwh : host.data.dropWhile isHostChar = ([] : List Char) := by
    have h0 := dropWhile_append_eq isHostChar host.data [] (fun c hc => (hhall c hc).1)
      (by intro c hc; simp at hc)
    simpa using h0
  have hhe : host.data.isEmpty = false := by
    cases h : host.data with
    | nil => exact absurd h hhne
    | cons a b => rfl
  simp only [parseURL]
  rw [hdata, htw, hdw, hsd]
  simp only [hc0, Bool.not_true, Bool.false_eq_true, if_false]
  rw [← hsd]
  simp only [List.cons_append, List.nil_append]
  rw [htwh, hdwh, hhe]
  simp only [Bool.false_eq_true, if_false]
  rw [map_toLower_self scheme.data (fun c hc => (hsall c hc).2),
      map_toLower_self host.data (fun c hc => (hhall c hc).2)]

/-- C9 (amended): `normalizeUrl` is idempotent on every input whose
normalized form does not still end in "/" (repeated trailing slashes: only
one is stripped per call) nor in a bare "?" (a query reduced to "?" is
dropped entirely by a second pass); unparsable inputs are trivially fixed
points. -/
theorem normalizeUrl_idem (u : String)
    (h1 : jsEndsWith (normalizeUrl u) "/" = false)
    (h2 : jsEndsWith (normalizeUrl u) "?" = false) :
    normalizeUrl (normalizeUrl u) = normalizeUrl u := by
  cases hp : parseURL u with
  | none =>
    have he : normalizeUrl u = u := by
      unfold normalizeUrl
      rw [hp]
    rw [he]
    exact he
  | some p =>
    obtain ⟨s, hproto, hsOk, hhOk, hpaOk, hqOk⟩ := parse_partsOk u p hp
    obtain ⟨pr, host, path, qs⟩ := p
    simp only at hproto hsOk hhOk hpaOk hqOk
    subst hproto
    have heval := normalizeUrl_eval u s host path qs hp hsOk hhOk hpaOk
    by_cases hends : jsEndsWith (s ++ "://" ++ host ++ path ++ qs) "/" = true
    case neg =>
      have hpc : parseURL (s ++ "://" ++ host ++ path ++ qs) =
          some ⟨s ++ ":", host, path, qs⟩ := by
        have h0 := parse_render s host path qs "" hsOk hhOk hpaOk hqOk (by decide)
        rwa [string_append_empty] at h0
      rw [heval, if_neg hends]
      rw [normalizeUrl_eval _ s host path qs hpc hsOk hhOk hpaOk, if_neg hends]
    case pos =>
      rw [heval, if_pos hends] at h1 h2 ⊢
      obtain ⟨⟨pt, hpt⟩, hpall⟩ := pathOk_unpack path hpaOk
      rcases searchOk_unpack qs hqOk with hq0 | ⟨qt, hqt, hqtne, hqall⟩
      · have hqs : qs = "" := string_eq_of_data qs "" hq0
        subst hqs
        rw [string_append_empty (s ++ "://" ++ host ++ path)] at h1 h2 hends ⊢
        have hplast : path.data.getLast? = some '/' := by
          have h3 := (jsEndsWith_slash _).mp hends
          rw [string_data_append (s ++ "://" ++ host) path] at h3
          rwa [getLast?_append_right _ _ (by rw [hpt]; simp)] at h3
        by_cases hpd : path.data.dropLast = []
        · have hpdata : path.data = ['/'] := by
            rw [hpt] at hpd ⊢
            cases pt with
            | nil => rfl
            | cons b bs =>
              rw [List.dropLast_cons₂] at hpd
              simp at hpd
          have ho : jsDropLast (s ++ "://" ++ host ++ path) = s ++ "://" ++ host := by
            apply string_eq_of_data
            show ((s ++ "://" ++ host ++ path).data).dropLast = (s ++ "://" ++ host).data
            rw [string_data_append (s ++ "://" ++ host) path, hpdata]
            exact List.dropLast_concat
          rw [ho]
          have hpb := parse_render_bare s host hsOk hhOk
          have heval2 := normalizeUrl_eval (s ++ "://" ++ host) s host "/" "" hpb hsOk hhOk
            (by decide)
          rw [string_append_empty (s ++ "://" ++ host ++ "/")] at heval2
          rw [heval2]
          have hslash : jsEndsWith (s ++ "://" ++ host ++ "/") "/" = true := by
            rw [jsEndsWith_slash, string_data_append (s ++ "://" ++ host) "/"]
            exact List.getLast?_concat _
          rw [if_pos hslash]
          apply string_eq_of_data
          show ((s ++ "://" ++ host ++ "/").data).dropLast = (s ++ "://" ++ host).data
          rw [string_data_append (s ++ "://" ++ host) "/"]
          exact List.dropLast_concat
        · have hpath' : pathOk (String.mk path.data.dropLast) = true := by
            simp only [pathOk, Bool.and_eq_true, List.all_eq_true]
            constructor
            · rw [hpt] at hpd ⊢
              cases pt with
              | nil => simp at hpd
              | cons b bs =>
                rw [List.dropLast_cons₂]
                simp [List.headD]
            · intro c hc
              exact hpall c (List.dropLast_subset _ hc)
          have ho : jsDropLast (s ++ "://" ++ host ++ path) =
              s ++ "://" ++ host ++ String.mk path.data.dropLast := by
            apply string_eq_of_data
            show ((s ++ "://" ++ host ++ path).data).dropLast = _
            rw [string_data_append (s ++ "://" ++ host) path,
              dropLast_append_right _ _ (by rw [hpt]; simp),
              string_data_append (s ++ "://" ++ host) (String.mk path.data.dropLast)]
          rw [ho] at h1 ⊢
          have hp' : parseURL (s ++ "://" ++ host ++ String.mk path.data.dropLast) =
              some ⟨s ++ ":", host, String.mk path.data.dropLast, ""⟩ := by
            have h0 := parse_render s host (String.mk path.data.dropLast) "" ""
              hsOk hhOk hpath' (by decide) (by decide)
            rwa [string_append_empty, string_append_empty] at h0
          have heval2 := normalizeUrl_eval _ s host (String.mk path.data.dropLast) "" hp'
            hsOk hhOk hpath'
          rw [string_append_empty (s ++ "://" ++ host ++ String.mk path.data.dropLast)] at heval2
          rw [heval2, if_neg (by simp [h1])]
      · have hqne : qs.data ≠ [] := by
          rw [hqt]
          simp
        have ho : jsDropLast (s ++ "://" ++ host ++ path ++ qs) =
            s ++ "://" ++ host ++ path ++ String.mk qs.data.dropLast := by
          apply string_eq_of_data
          show ((s ++ "://" ++ host ++ path ++ qs).data).dropLast = _
          rw [string_data_append (s ++ "://" ++ host ++ path) qs,
            dropLast_append_right _ _ hqne,
            string_data_append (s ++ "://" ++ host ++ path) (String.mk qs.data.dropLast)]
        rw [ho] at h1 h2 ⊢
        obtain ⟨b, bs, hqtc⟩ : ∃ b bs, qt = b :: bs := by
          cases hq2 : qt with
          | nil => exact absurd hq2 hqtne
          | cons b bs => exact ⟨b, bs, rfl⟩
        have hdl : qs.data.dropLast = '?' :: qt.dropLast := by
          rw [hqt, hqtc, List.dropLast_cons₂, ← hqtc]
        have hqdne : qt.dropLast ≠ [] := by
          intro h0
          have hq' : (s ++ "://" ++ host ++ path ++
              String.mk qs.data.dropLast).data.getLast? = some '?' := by
            rw [string_data_append (s ++ "://" ++ host ++ path) (String.mk qs.data.dropLast)]
            rw [getLast?_append_right _ _ (by rw [hdl]; simp)]
            rw [hdl, h0]
            rfl
          have hq'' := (jsEndsWith_qmark _).mpr hq'
          rw [hq''] at h2
          simp at h2
        have hsearch' : searchOk (String.mk qs.data.dropLast) = true := by
          simp only [searchOk, Bool.or_eq_true, Bool.and_eq_true, List.all_eq_true]
          right
          refine ⟨⟨?_, ?_⟩, ?_⟩
          · rw [hdl]
            simp [List.headD]
          · rw [hdl]
            cases hql : qt.dropLast with
            | nil => exact absurd hql hqdne
            | cons x y => simp
          · intro c hc
            rw [hdl] at hc
            simp only [List.mem_cons] at hc
            rcases hc with rfl | hc
            · decide
            · simp [hqall c (List.dropLast_subset _ hc)]
        have hp' : parseURL (s ++ "://" ++ host ++ path ++ String.mk qs.data.dropLast) =
            some ⟨s ++ ":", host, path, String.mk qs.data.dropLast⟩ := by
          have h0 := parse_render s host path (String.mk qs.data.dropLast) ""
            hsOk hhOk hpaOk hsearch' (by decide)
          rwa [string_append_empty] at h0
        have heval2 := normalizeUrl_eval _ s host path (String.mk qs.data.dropLast) hp'
          hsOk hhOk hpaOk
        rw [heval2, if_neg (by simp [h1])]

theorem normalizeUrl_idem_witness :
    normalizeUrl (normalizeUrl "https://example.com/a/") =
      normalizeUrl "https://example.com/a/" :=
  normalizeUrl_idem "https://example.com/a/" (by decide) (by decide)

/-- C9 counterexample: normalization strips only one trailing slash per call,
so a URL with a doubled trailing slash is not a fixed point after one pass. -/
theorem normalizeUrl_not_idempotent :
    normalizeUrl (normalizeUrl "https://example.com//") ≠
        normalizeUrl "https://example.com//" ∧
      normalizeUrl "https://example.com//" = "https://example.com/" ∧
      normalizeUrl "https://example.com/" = "https://example.com" :=
  ⟨by decide, by decide, by decide⟩
